import Mathlib

/-!
Verification development for the F1 analytics pipeline
(`f1_pipeline/transformers/analytics_transformer.py`).

The definitions below are a shallow embedding of the two transformation
routines the specification's claims are about:

* `transform_grand_prix_results` — the per-race result builder
  (`DataTransformer.transform_grand_prix_results` together with its helpers
  `_get_fastest_laps`, `_get_penalties` and `_calculate_points`);
* `transform_championship_standings` — the championship-standings fold
  (`DataTransformer.transform_championship_standings`).

DataFrames become lists of records; nullable columns become `Option`;
Python's insertion-ordered dict becomes an insertion-ordered association
list; `list.sort(key=..., reverse=True)` (a stable sort) becomes a stable
insertion sort on the same key; the pandas
`groupby(["date", "grand_prix"])` (which sorts the group keys) becomes
dedup-then-sort on the `(date, grand_prix)` key.  Numeric point values are
integers in the source data, so points are modelled as `Int`; lap
durations only ever flow through `MIN` and null tests, so they are
modelled as `Int` as well.  The wall-clock `created_at` column and the
string `result_id`/`standing_id` columns carry no behaviour and are not
modelled.
-/

namespace F1

/-- Generic first-occurrence deduplication, mirroring both `dict` key
insertion order and `SELECT DISTINCT`/`GROUP BY` key collection. -/
def dedup {α : Type} [DecidableEq α] : List α → List α
  | [] => []
  | x :: xs => x :: (dedup xs).filter (fun y => y ≠ x)

/-- Row of `raw_session_result` for one session (`position` is nullable;
pandas comparisons against a null position are false). -/
structure SessionResultRow where
  driver_number : Int
  position : Option Int
  dnf : Bool
  dns : Bool
  dsq : Bool
deriving DecidableEq, Repr

/-- Row of `raw_drivers` for one session. -/
structure DriverRow where
  driver_number : Int
  full_name : String
  name_acronym : String
  team_name : String
deriving DecidableEq, Repr

/-- Row of `raw_starting_grid` for one session. -/
structure GridRow where
  driver_number : Int
  position : Int
deriving DecidableEq, Repr

/-- Row of `raw_laps` for one session (`lap_duration` nullable). -/
structure LapRow where
  driver_number : Int
  lap_duration : Option Int
deriving DecidableEq, Repr

/-- One penalty event recorded in the session's race-control data. -/
structure PenaltyRow where
  driver_number : Int
  penalty_seconds : Int
deriving DecidableEq, Repr

/-- All raw inputs for one race session, as fetched by the helper queries
of `transform_grand_prix_results` (already restricted to the session). -/
structure RaceSession where
  race_date : Int
  meeting_name : String
  circuit_short_name : String
  session_results : List SessionResultRow
  drivers : List DriverRow
  starting_grid : List GridRow
  laps : List LapRow
  penalties : List PenaltyRow
deriving DecidableEq, Repr

/-- One row of the `grand_prix_results` analytics table, as built by
`transform_grand_prix_results` (the wall-clock `created_at` column and the
derived `result_id` string are not modelled). -/
structure ResultRecord where
  date : Int
  year : Int
  grand_prix : String
  circuit_name : String
  driver_number : Int
  driver_name : String
  driver_acronym : String
  team_name : String
  starting_grid_position : Option Int
  final_position : Option Int
  points : Int
  fastest_lap : Option Int
  total_time_penalty : Int
  dnf : Bool
  dns : Bool
  dsq : Bool
deriving DecidableEq, Repr

/-- Pandas comparison `position <= 10` where `position` may be null: a null
compares false. -/
def optLe10 : Option Int → Bool
  | some p => p ≤ 10
  | none => false

/-- Pandas comparison `final_position == 1` where the position may be null. -/
def optEq1 : Option Int → Bool
  | some p => p == 1
  | none => false

/-- Pandas comparison `final_position <= 3` where the position may be null. -/
def optLe3 : Option Int → Bool
  | some p => p ≤ 3
  | none => false

/-- The `points_system` dict of `_calculate_points`: position 1..10 map to
25,18,15,12,10,8,6,4,2,1, everything else (`dict.get` default) to 0. -/
def points_system (p : Int) : Int :=
  if p = 1 then 25 else if p = 2 then 18 else if p = 3 then 15
  else if p = 4 then 12 else if p = 5 then 10 else if p = 6 then 8
  else if p = 7 then 6 else if p = 8 then 4 else if p = 9 then 2
  else if p = 10 then 1 else 0

/-- The `_calculate_points` helper: table points for the position (0 for a
null position, via the `dict.get` default), plus 1 when the
`has_fastest_lap` flag is set and the position is `<= 10`. -/
def _calculate_points (position : Option Int) (has_fastest_lap : Bool) : Int :=
  let pts := match position with
    | some p => points_system p
    | none => 0
  if has_fastest_lap && optLe10 position then pts + 1 else pts

/-- The driver's own non-null lap durations in the session, in row order
(the rows the `MIN(lap_duration) ... GROUP BY driver_number` query
aggregates for that driver). -/
def driverLaps (laps : List LapRow) (n : Int) : List Int :=
  (laps.filterMap (fun l => l.lap_duration.map (fun d => (l.driver_number, d)))).filterMap
    (fun p => if p.1 = n then some p.2 else none)

/-- The `MIN` aggregate of one driver's non-null laps (the `[]` branch is
unreachable: the aggregate is only evaluated for drivers with at least one
non-null lap). -/
def fastestLapOf (laps : List LapRow) (n : Int) : Int :=
  match driverLaps laps n with
  | [] => 0
  | d :: rest => rest.foldl min d

/-- The `_get_fastest_laps` query: per driver with a non-null lap, the
minimum of the driver's non-null lap durations in the session
(`GROUP BY driver_number` with `MIN(lap_duration)` over
`lap_duration IS NOT NULL`). -/
def _get_fastest_laps (laps : List LapRow) : List (Int × Int) :=
  (dedup ((laps.filterMap
      (fun l => l.lap_duration.map (fun d => (l.driver_number, d)))).map (·.1))).map
    (fun n => (n, fastestLapOf laps n))

/-- The `_get_penalties` helper.  In the source it ignores the session and
returns an empty frame ("This would need to be parsed from race control
messages. For now, return empty DataFrame"), so the session's recorded
penalty events are discarded. -/
def _get_penalties (_s : RaceSession) : List PenaltyRow := []

/-- The body of the per-driver loop of `transform_grand_prix_results`:
joins one classification row with the session's driver roster, grid,
fastest laps and penalties and computes the points.  Returns `none` when
the driver is missing from the roster (`continue` in the source). -/
def buildResultRecord (year : Int) (s : RaceSession) (result : SessionResultRow) :
    Option ResultRecord :=
  match (s.drivers.filter (fun dr => dr.driver_number = result.driver_number)).head? with
  | none => none
  | some driver_info =>
    let starting_position :=
      ((s.starting_grid.filter (fun g => g.driver_number = result.driver_number)).head?).map
        (·.position)
    let fastest_lap_time :=
      (((_get_fastest_laps s.laps).filter (fun p => p.1 = result.driver_number)).head?).map (·.2)
    let total_penalty :=
      (((_get_penalties s).filter (fun p => p.driver_number = result.driver_number)).map
        (·.penalty_seconds)).sum
    let points := _calculate_points result.position
      (fastest_lap_time.isSome && optLe10 result.position)
    some
      { date := s.race_date
        year := year
        grand_prix := s.meeting_name
        circuit_name := s.circuit_short_name
        driver_number := result.driver_number
        driver_name := driver_info.full_name
        driver_acronym := driver_info.name_acronym
        team_name := driver_info.team_name
        starting_grid_position := starting_position
        final_position := result.position
        points := points
        fastest_lap := fastest_lap_time
        total_time_penalty := total_penalty
        dnf := result.dnf
        dns := result.dns
        dsq := result.dsq }

/-- The `transform_grand_prix_results` routine over the year's race
sessions: sessions with no classification rows or no driver roster are
skipped, otherwise each classification row is turned into a result record
(rows whose driver is missing from the roster are skipped). -/
def transform_grand_prix_results (year : Int) (sessions : List RaceSession) :
    List ResultRecord :=
  sessions.flatMap (fun s =>
    if s.session_results.isEmpty || s.drivers.isEmpty then []
    else s.session_results.filterMap (buildResultRecord year s))

/-- One row of the `driver_championship_standings` analytics table, as
emitted by `transform_championship_standings` (the wall-clock `created_at`
column and the derived `standing_id` string are not modelled). -/
structure StandingRecord where
  year : Int
  race_round : Nat
  after_race : String
  driver_number : Int
  driver_name : String
  team_name : String
  position : Nat
  points : Int
  points_behind_leader : Int
  points_ahead_next : Int
  wins : Nat
  podiums : Nat
  points_finishes : Nat
deriving DecidableEq, Repr

/-- Grouping key of the pandas `groupby(["date", "grand_prix"])`. -/
def raceKey (r : ResultRecord) : Int × String := (r.date, r.grand_prix)

/-- Strict lexicographic order on `(date, grand_prix)` keys, the order in
which pandas sorts the group keys. -/
def keyLt (a b : Int × String) : Bool :=
  a.1 < b.1 || (a.1 == b.1 && a.2 < b.2)

/-- Insert a key into an ascending key list (skip keys strictly below it). -/
def insertKey (a : Int × String) : List (Int × String) → List (Int × String)
  | [] => [a]
  | b :: l => if keyLt b a then b :: insertKey a l else a :: b :: l

/-- Ascending insertion sort of the group keys. -/
def sortKeys : List (Int × String) → List (Int × String)
  | [] => []
  | x :: xs => insertKey x (sortKeys xs)

/-- The race list of `transform_championship_standings`: the distinct
`(date, grand_prix)` keys of the result rows, in the sorted order produced
by `groupby(["date", "grand_prix"]).first().reset_index()`; the position
of a key in this list is `race_idx`, and `race_round = race_idx + 1`. -/
def raceKeys (results : List ResultRecord) : List (Int × String) :=
  sortKeys (dedup (results.map raceKey))

/-- The rows of one race: `results` filtered to the race's date and
grand-prix name. -/
def raceRows (results : List ResultRecord) (k : Int × String) : List ResultRecord :=
  results.filter (fun r => raceKey r = k)

/-- One update of the `cumulative_points` dict for one result row:
initialise a first-appearance driver to 0, then add the row's points.  New
drivers are appended at the end, mirroring dict insertion order. -/
def bumpPoints : List (Int × Int) → Int → Int → List (Int × Int)
  | [], n, p => [(n, p)]
  | kv :: t, n, p => if kv.1 = n then (kv.1, kv.2 + p) :: t else kv :: bumpPoints t n p

/-- Folding one race's rows into the `cumulative_points` dict. -/
def updateCum (m : List (Int × Int)) (rows : List ResultRecord) : List (Int × Int) :=
  rows.foldl (fun acc r => bumpPoints acc r.driver_number r.points) m

/-- Association-list lookup in the `cumulative_points` dict. -/
def lookupCum : List (Int × Int) → Int → Option Int
  | [], _ => none
  | kv :: t, n => if kv.1 = n then some kv.2 else lookupCum t n

/-- One pre-sort entry of the `race_standings` list. -/
structure Standing where
  driver_number : Int
  driver_name : String
  team_name : String
  points : Int
  wins : Nat
  podiums : Nat
  points_finishes : Nat
deriving DecidableEq, Repr

/-- First result row of the season for a driver — the source's
`results[results["driver_number"] == driver_number].iloc[0]`. -/
def firstRowFor (results : List ResultRecord) (n : Int) : Option ResultRecord :=
  (results.filter (fun r => r.driver_number = n)).head?

/-- One entry of the `race_standings` list for a driver with cumulative
total `total` after the race dated `d`: identity fields from the driver's
first result row (the source indexes it with `.iloc[0]`, which presupposes
a matching row; a ledger driver always has one), and wins / podiums /
points-finishes counted over the driver's rows with `date <= d`. -/
def mkStanding (results : List ResultRecord) (d : Int) (n : Int) (total : Int) : Standing :=
  let info := firstRowFor results n
  let driver_results := results.filter (fun r => r.driver_number = n && r.date ≤ d)
  { driver_number := n
    driver_name := (info.map (·.driver_name)).getD ""
    team_name := (info.map (·.team_name)).getD ""
    points := total
    wins := (driver_results.filter (fun r => optEq1 r.final_position)).length
    podiums := (driver_results.filter (fun r => optLe3 r.final_position)).length
    points_finishes := (driver_results.filter (fun r => 0 < r.points)).length }

/-- The `race_standings` list: one entry per driver of the cumulative
dict, in dict insertion order. -/
def buildStandings (results : List ResultRecord) (d : Int) (cum : List (Int × Int)) :
    List Standing :=
  cum.map (fun kv => mkStanding results d kv.1 kv.2)

/-- Stable descending insertion on `points`: an earlier-listed entry stays
ahead of every entry with the same or fewer points, exactly as Python's
stable `list.sort(key=points, reverse=True)` leaves it. -/
def insertStanding (a : Standing) : List Standing → List Standing
  | [] => [a]
  | b :: l => if a.points < b.points then b :: insertStanding a l else a :: b :: l

/-- The standings sort: stable, by `points` descending (and by nothing
else). -/
def sortStandings : List Standing → List Standing
  | [] => []
  | x :: xs => insertStanding x (sortStandings xs)

/-- The emission loop over the sorted `race_standings`: 1-based positions,
`points_behind_leader = leader_points - points`, and `points_ahead_next`
equal to the gap to the next entry, or 0 for the last entry. -/
def mkRecords (year : Int) (round : Nat) (gp : String) (leader : Int) :
    Nat → List Standing → List StandingRecord
  | _, [] => []
  | pos, s :: rest =>
    { year := year
      race_round := round
      after_race := gp
      driver_number := s.driver_number
      driver_name := s.driver_name
      team_name := s.team_name
      position := pos
      points := s.points
      points_behind_leader := leader - s.points
      points_ahead_next := match rest with
        | [] => 0
        | t :: _ => s.points - t.points
      wins := s.wins
      podiums := s.podiums
      points_finishes := s.points_finishes } :: mkRecords year round gp leader (pos + 1) rest

/-- The snapshot block emitted for one race: build the standings from the
cumulative dict, sort them, read the leader's points off the head (0 when
empty) and emit the records. -/
def raceBlock (year : Int) (results : List ResultRecord) (round : Nat) (gp : String)
    (d : Int) (cum : List (Int × Int)) : List StandingRecord :=
  mkRecords year round gp
    (((sortStandings (buildStandings results d cum)).head?.map (·.points)).getD 0) 1
    (sortStandings (buildStandings results d cum))

/-- The race loop of `transform_championship_standings`: fold the races in
key order, updating the cumulative dict with each race's rows before
emitting that race's snapshot block. -/
def standingsLoop (year : Int) (results : List ResultRecord) :
    List (Int × Int) → Nat → List (Int × String) → List StandingRecord
  | _, _, [] => []
  | cum, round, k :: ks =>
    let cum2 := updateCum cum (raceRows results k)
    raceBlock year results round k.2 k.1 cum2 ++
      standingsLoop year results cum2 (round + 1) ks

/-- The `transform_championship_standings` routine: group the year's
result rows into races by `(date, grand_prix)`, then fold the races in
sorted key order from an empty cumulative dict. -/
def transform_championship_standings (year : Int) (results : List ResultRecord) :
    List StandingRecord :=
  standingsLoop year results [] 1 (raceKeys results)

/-- The snapshot set for one `race_round` within the emitted records. -/
def snapAt (out : List StandingRecord) (R : Nat) : List StandingRecord :=
  out.filter (fun s => s.race_round = R)

/-- Sum of the points of a driver's rows within a row list. -/
def sumPoints (rows : List ResultRecord) (n : Int) : Int :=
  ((rows.filter (fun r => r.driver_number = n)).map (·.points)).sum

/-- The rows of races `1..R`, race by race, in chronological (key) order. -/
def racesUpTo (results : List ResultRecord) (R : Nat) : List (List ResultRecord) :=
  ((raceKeys results).take R).map (raceRows results)

/-- A driver's cumulative season points over races `1..R`: the sum, over
the first `R` races in chronological order, of the driver's per-race
points. -/
def seasonPoints (results : List ResultRecord) (R : Nat) (n : Int) : Int :=
  ((racesUpTo results R).map (fun rows => sumPoints rows n)).sum

/-- Folding a list of races into the cumulative dict, starting from `m`. -/
def cumFold (results : List ResultRecord) (m : List (Int × Int))
    (ks : List (Int × String)) : List (Int × Int) :=
  ks.foldl (fun acc k => updateCum acc (raceRows results k)) m

section MkRecordsLemmas

theorem mkRecords_map_position (year : Int) (round : Nat) (gp : String) (leader : Int) :
    ∀ (l : List Standing) (pos : Nat),
      (mkRecords year round gp leader pos l).map (·.position) = List.range' pos l.length := by
  intro l
  induction l with
  | nil => intro pos; simp [mkRecords]
  | cons s rest ih =>
    intro pos
    simp [mkRecords, List.range', ih (pos + 1)]

theorem mkRecords_map_driver (year : Int) (round : Nat) (gp : String) (leader : Int) :
    ∀ (l : List Standing) (pos : Nat),
      (mkRecords year round gp leader pos l).map (·.driver_number) =
        l.map (·.driver_number) := by
  intro l
  induction l with
  | nil => intro pos; simp [mkRecords]
  | cons s rest ih => intro pos; simp [mkRecords, ih (pos + 1)]

theorem mkRecords_map_points (year : Int) (round : Nat) (gp : String) (leader : Int) :
    ∀ (l : List Standing) (pos : Nat),
      (mkRecords year round gp leader pos l).map (·.points) = l.map (·.points) := by
  intro l
  induction l with
  | nil => intro pos; simp [mkRecords]
  | cons s rest ih => intro pos; simp [mkRecords, ih (pos + 1)]

theorem mkRecords_map_behind (year : Int) (round : Nat) (gp : String) (leader : Int) :
    ∀ (l : List Standing) (pos : Nat),
      (mkRecords year round gp leader pos l).map (·.points_behind_leader) =
        l.map (fun st => leader - st.points) := by
  intro l
  induction l with
  | nil => intro pos; simp [mkRecords]
  | cons s rest ih => intro pos; simp [mkRecords, ih (pos + 1)]

theorem mkRecords_round (year : Int) (round : Nat) (gp : String) (leader : Int) :
    ∀ (l : List Standing) (pos : Nat) (s : StandingRecord),
      s ∈ mkRecords year round gp leader pos l → s.race_round = round := by
  intro l
  induction l with
  | nil => intro pos s h; simp [mkRecords] at h
  | cons st rest ih =>
    intro pos s h
    simp only [mkRecords, List.mem_cons] at h
    rcases h with h | h
    · subst h; rfl
    · exact ih (pos + 1) s h

theorem mkRecords_mem (year : Int) (round : Nat) (gp : String) (leader : Int) :
    ∀ (l : List Standing) (pos : Nat) (s : StandingRecord),
      s ∈ mkRecords year round gp leader pos l →
        ∃ st ∈ l, s.driver_number = st.driver_number ∧ s.driver_name = st.driver_name ∧
          s.team_name = st.team_name ∧ s.points = st.points ∧ s.wins = st.wins ∧
          s.podiums = st.podiums ∧ s.points_finishes = st.points_finishes ∧
          s.points_behind_leader = leader - st.points := by
  intro l
  induction l with
  | nil => intro pos s h; simp [mkRecords] at h
  | cons st rest ih =>
    intro pos s h
    simp only [mkRecords, List.mem_cons] at h
    rcases h with h | h
    · exact ⟨st, List.mem_cons_self _ _, by subst h; simp⟩
    · obtain ⟨st', hst', hf⟩ := ih (pos + 1) s h
      exact ⟨st', List.mem_cons_of_mem _ hst', hf⟩

theorem mkRecords_chain_ahead (year : Int) (round : Nat) (gp : String) (leader : Int) :
    ∀ (l : List Standing) (pos : Nat),
      List.Chain' (fun x y => x.points_ahead_next = x.points - y.points)
        (mkRecords year round gp leader pos l) := by
  intro l
  induction l with
  | nil => intro pos; simp [mkRecords]
  | cons s rest ih =>
    intro pos
    cases rest with
    | nil => simp [mkRecords]
    | cons t rest' =>
      refine List.Chain'.cons ?_ (ih (pos + 1))
      simp [mkRecords]

theorem mkRecords_getLast_ahead (year : Int) (round : Nat) (gp : String) (leader : Int) :
    ∀ (l : List Standing) (pos : Nat) (s : StandingRecord),
      (mkRecords year round gp leader pos l).getLast? = some s →
        s.points_ahead_next = 0 := by
  intro l
  induction l with
  | nil => intro pos s h; simp [mkRecords] at h
  | cons st rest ih =>
    intro pos s h
    cases rest with
    | nil =>
      simp [mkRecords] at h
      subst h; rfl
    | cons t rest' =>
      simp only [mkRecords] at h
      rw [List.getLast?_cons_cons] at h
      exact ih (pos + 1) s (by simp only [mkRecords]; exact h)

theorem mkRecords_filter_points_map_driver (year : Int) (round : Nat) (gp : String)
    (leader : Int) (p : Int) :
    ∀ (l : List Standing) (pos : Nat),
      ((mkRecords year round gp leader pos l).filter (fun s => s.points = p)).map
          (·.driver_number) =
        (l.filter (fun st => st.points = p)).map (·.driver_number) := by
  intro l
  induction l with
  | nil => intro pos; simp [mkRecords]
  | cons st rest ih =>
    intro pos
    by_cases hp : st.points = p
    · simp [mkRecords, List.filter_cons, hp, ih (pos + 1)]
    · simp [mkRecords, List.filter_cons, hp, ih (pos + 1)]

end MkRecordsLemmas

section SortLemmas

theorem insertStanding_perm (a : Standing) :
    ∀ l : List Standing, List.Perm (insertStanding a l) (a :: l) := by
  intro l
  induction l with
  | nil => simp [insertStanding]
  | cons b t ih =>
    by_cases h : a.points < b.points
    · simp only [insertStanding, if_pos h]
      exact (ih.cons b).trans (List.Perm.swap a b t)
    · simp [insertStanding, if_neg h]

theorem sortStandings_perm : ∀ l : List Standing, List.Perm (sortStandings l) l := by
  intro l
  induction l with
  | nil => simp [sortStandings]
  | cons x xs ih =>
    exact (insertStanding_perm x (sortStandings xs)).trans (ih.cons x)

theorem insertStanding_chain (a : Standing) :
    ∀ l : List Standing, List.Chain' (fun x y => y.points ≤ x.points) l →
      List.Chain' (fun x y => y.points ≤ x.points) (insertStanding a l) := by
  intro l
  induction l with
  | nil => intro _; simp [insertStanding]
  | cons b t ih =>
    intro hl
    by_cases h : a.points < b.points
    · simp only [insertStanding, if_pos h]
      have ht := hl.tail
      have hit := ih ht
      refine List.chain'_cons'.mpr ⟨?_, hit⟩
      intro y hy
      cases t with
      | nil =>
        simp [insertStanding] at hy
        subst hy
        exact le_of_lt h
      | cons c t' =>
        by_cases hac : a.points < c.points
        · simp only [insertStanding, if_pos hac, List.head?_cons, Option.mem_def,
            Option.some.injEq] at hy
          subst hy
          exact (List.chain'_cons.mp hl).1
        · simp only [insertStanding, if_neg hac, List.head?_cons, Option.mem_def,
            Option.some.injEq] at hy
          subst hy
          exact le_of_lt h
    · simp only [insertStanding, if_neg h]
      exact List.Chain'.cons (le_of_not_lt h) hl

theorem sortStandings_chain :
    ∀ l : List Standing, List.Chain' (fun x y => y.points ≤ x.points) (sortStandings l) := by
  intro l
  induction l with
  | nil => simp [sortStandings]
  | cons x xs ih => exact insertStanding_chain x (sortStandings xs) ih

theorem insertStanding_filter_points (a : Standing) (p : Int) :
    ∀ l : List Standing,
      (insertStanding a l).filter (fun s => s.points = p) =
        if a.points = p then a :: l.filter (fun s => s.points = p)
        else l.filter (fun s => s.points = p) := by
  intro l
  induction l with
  | nil =>
    by_cases hp : a.points = p <;> simp [insertStanding, List.filter_cons, hp]
  | cons b t ih =>
    by_cases h : a.points < b.points
    · simp only [insertStanding, if_pos h, List.filter_cons, ih]
      by_cases hb : b.points = p
      · have hap : ¬ a.points = p := by
          intro hap
          rw [hap, ← hb] at h
          exact lt_irrefl _ h
        simp [hb, hap]
      · simp [hb]
    · simp only [insertStanding, if_neg h, List.filter_cons]
      by_cases hp : a.points = p <;> simp [hp]

theorem sortStandings_filter_points (p : Int) :
    ∀ l : List Standing,
      (sortStandings l).filter (fun s => s.points = p) =
        l.filter (fun s => s.points = p) := by
  intro l
  induction l with
  | nil => simp [sortStandings]
  | cons x xs ih =>
    rw [sortStandings, insertStanding_filter_points, List.filter_cons]
    by_cases hp : x.points = p <;> simp [hp, ih]

theorem sortStandings_head_max :
    ∀ (l : List Standing) (h : Standing), (sortStandings l).head? = some h →
      ∀ s ∈ sortStandings l, s.points ≤ h.points := by
  intro l h hh s hs
  have hch := sortStandings_chain l
  haveI : IsTrans Standing (fun x y => y.points ≤ x.points) :=
    ⟨fun a b c h1 h2 => le_trans h2 h1⟩
  have hpw : (sortStandings l).Pairwise (fun x y => y.points ≤ x.points) :=
    List.chain'_iff_pairwise.mp hch
  cases hsl : sortStandings l with
  | nil => rw [hsl] at hs; simp at hs
  | cons a t =>
    rw [hsl] at hh hs hpw
    simp only [List.head?_cons, Option.some.injEq] at hh
    subst hh
    rcases List.mem_cons.mp hs with rfl | hst
    · exact le_refl _
    · exact (List.pairwise_cons.mp hpw).1 s hst

end SortLemmas

section DedupLemmas

theorem mem_dedup {α : Type} [DecidableEq α] (l : List α) : ∀ x : α, x ∈ dedup l ↔ x ∈ l := by
  induction l with
  | nil => intro x; simp [dedup]
  | cons y ys ih =>
    intro x
    rw [dedup]
    simp only [List.mem_cons, List.mem_filter, ih]
    constructor
    · rintro (rfl | ⟨hx, _⟩)
      · exact Or.inl rfl
      · exact Or.inr hx
    · rintro (rfl | hx)
      · exact Or.inl rfl
      · by_cases hxy : x = y
        · exact Or.inl hxy
        · exact Or.inr ⟨hx, by simp [hxy]⟩

theorem dedup_nodup {α : Type} [DecidableEq α] (l : List α) : (dedup l).Nodup := by
  induction l with
  | nil => simp [dedup]
  | cons y ys ih =>
    rw [dedup]
    refine List.nodup_cons.mpr ⟨?_, ih.filter _⟩
    intro hy
    have := List.mem_filter.mp hy
    simp at this

theorem dedup_append_disjoint {α : Type} [DecidableEq α] :
    ∀ la lb : List α, (∀ a ∈ la, ∀ b ∈ lb, a ≠ b) →
      dedup (la ++ lb) = dedup la ++ dedup lb := by
  intro la
  induction la with
  | nil => intro lb _; simp [dedup]
  | cons y ys ih =>
    intro lb hdisj
    rw [List.cons_append, dedup, dedup,
      ih lb (fun a ha b hb => hdisj a (List.mem_cons_of_mem _ ha) b hb),
      List.filter_append]
    have hlb : (dedup lb).filter (fun z => z ≠ y) = dedup lb := by
      refine List.filter_eq_self.mpr ?_
      intro b hb
      have hbl : b ∈ lb := (mem_dedup lb b).mp hb
      have := hdisj y (List.mem_cons_self _ _) b hbl
      simp [Ne.symm this]
    rw [hlb]
    rfl

theorem dedup_filter {α : Type} [DecidableEq α] (p : α → Bool) :
    ∀ l : List α, (dedup l).filter p = dedup (l.filter p) := by
  intro l
  induction l with
  | nil => simp [dedup]
  | cons x xs ih =>
    by_cases hp : p x = true
    · rw [dedup, List.filter_cons]
      simp only [hp, if_pos]
      rw [List.filter_cons_of_pos hp, dedup, ← ih, List.filter_filter, List.filter_filter]
      congr 1
      refine List.filter_congr ?_
      intro y _
      rw [Bool.and_comm]
    · have hp' : p x = false := by
        cases hpx : p x
        · rfl
        · exact absurd hpx hp
      rw [dedup, List.filter_cons_of_neg (by simp [hp']),
        List.filter_cons_of_neg (by simp [hp']), List.filter_filter, ← ih]
      refine List.filter_congr ?_
      intro y _
      by_cases hyx : y = x
      · subst hyx
        simp [hp']
      · simp [hyx]

end DedupLemmas

section CumLemmas

/-- Accumulate the not-yet-seen elements of `l` at the end of `acc`,
keeping first-appearance order (how dict insertion order grows). -/
def appendNew (acc : List Int) (l : List Int) : List Int :=
  l.foldl (fun a n => if n ∈ a then a else a ++ [n]) acc

theorem appendNew_cons (acc : List Int) (n : Int) (l : List Int) :
    appendNew acc (n :: l) = appendNew (if n ∈ acc then acc else acc ++ [n]) l := by
  simp [appendNew, List.foldl_cons]

theorem appendNew_eq_dedup (l : List Int) :
    ∀ acc : List Int, appendNew acc l = acc ++ dedup (l.filter (fun n => n ∉ acc)) := by
  induction l with
  | nil => intro acc; simp [appendNew, dedup]
  | cons x xs ih =>
    intro acc
    rw [appendNew_cons]
    by_cases hx : x ∈ acc
    · rw [if_pos hx, ih acc, List.filter_cons]
      simp [hx]
    · have h1 : (x :: xs).filter (fun n => n ∉ acc) = x :: xs.filter (fun n => n ∉ acc) := by
        rw [List.filter_cons]
        simp [hx]
      have h2 : (xs.filter (fun n => n ∉ acc)).filter (fun y => y ≠ x) =
          xs.filter (fun n => n ∉ acc ++ [x]) := by
        rw [List.filter_filter]
        refine List.filter_congr ?_
        intro b _
        by_cases hb1 : b = x <;> by_cases hb2 : b ∈ acc <;> simp [hb1, hb2]
      rw [if_neg hx, ih (acc ++ [x]), h1, dedup, dedup_filter, h2, List.append_assoc,
        List.singleton_append]

theorem mem_appendNew (acc l : List Int) (x : Int) :
    x ∈ appendNew acc l ↔ x ∈ acc ∨ x ∈ l := by
  rw [appendNew_eq_dedup, List.mem_append, mem_dedup, List.mem_filter]
  by_cases hx : x ∈ acc <;> simp [hx]

theorem appendNew_nodup (acc l : List Int) (h : acc.Nodup) : (appendNew acc l).Nodup := by
  rw [appendNew_eq_dedup]
  refine List.Nodup.append h (dedup_nodup _) ?_
  intro x hx hx2
  have := (mem_dedup _ x).mp hx2
  rw [List.mem_filter] at this
  simp only [decide_not, decide_eq_true_eq, Bool.not_eq_eq_eq_not, Bool.not_true,
    decide_eq_false_iff_not] at this
  exact this.2 hx

theorem bumpPoints_map_fst (n : Int) (p : Int) :
    ∀ m : List (Int × Int),
      (bumpPoints m n p).map (·.1) =
        if n ∈ m.map (·.1) then m.map (·.1) else m.map (·.1) ++ [n] := by
  intro m
  induction m with
  | nil => simp [bumpPoints]
  | cons kv t ih =>
    by_cases h : kv.1 = n
    · simp [bumpPoints, h]
    · simp only [bumpPoints, if_neg h, List.map_cons, ih, List.mem_cons]
      by_cases hm : n ∈ t.map (·.1) <;> simp [hm, Ne.symm h]

theorem bumpPoints_lookup (n : Int) (p : Int) :
    ∀ (m : List (Int × Int)) (x : Int),
      lookupCum (bumpPoints m n p) x =
        if x = n then some ((lookupCum m n).getD 0 + p) else lookupCum m x := by
  intro m
  induction m with
  | nil =>
    intro x
    by_cases hx : x = n
    · subst hx
      simp [bumpPoints, lookupCum]
    · have hnx : ¬ n = x := fun hc => hx hc.symm
      simp [bumpPoints, lookupCum, hx, hnx]
  | cons kv t ih =>
    intro x
    by_cases h : kv.1 = n
    · subst h
      by_cases hx : x = kv.1
      · subst hx
        simp [bumpPoints, lookupCum]
      · have h1 : ¬ kv.1 = x := fun hc => hx hc.symm
        simp [bumpPoints, lookupCum, hx, h1]
    · by_cases hkx : kv.1 = x
      · have hxn : ¬ x = n := fun hc => h (hkx.trans hc)
        simp [bumpPoints, lookupCum, h, hkx, hxn]
      · simp [bumpPoints, lookupCum, h, hkx, ih x]

theorem updateCum_map_fst :
    ∀ (rows : List ResultRecord) (m : List (Int × Int)),
      (updateCum m rows).map (·.1) =
        appendNew (m.map (·.1)) (rows.map (·.driver_number)) := by
  intro rows
  induction rows with
  | nil => intro m; simp [updateCum, appendNew]
  | cons r rest ih =>
    intro m
    have : updateCum m (r :: rest) = updateCum (bumpPoints m r.driver_number r.points) rest := by
      simp [updateCum, List.foldl_cons]
    rw [this, ih, bumpPoints_map_fst, List.map_cons, appendNew_cons]

theorem updateCum_lookup_getD :
    ∀ (rows : List ResultRecord) (m : List (Int × Int)) (x : Int),
      (lookupCum (updateCum m rows) x).getD 0 =
        (lookupCum m x).getD 0 + sumPoints rows x := by
  intro rows
  induction rows with
  | nil => intro m x; simp [updateCum, sumPoints]
  | cons r rest ih =>
    intro m x
    have hstep : updateCum m (r :: rest) = updateCum (bumpPoints m r.driver_number r.points) rest := by
      simp [updateCum, List.foldl_cons]
    rw [hstep, ih, bumpPoints_lookup]
    by_cases hx : x = r.driver_number
    · have hfil : sumPoints (r :: rest) x = r.points + sumPoints rest x := by
        simp [sumPoints, List.filter_cons, hx]
      rw [if_pos hx, hfil, hx]
      simp [Int.add_assoc, Int.add_comm r.points]
    · have hfil : sumPoints (r :: rest) x = sumPoints rest x := by
        have : ¬ r.driver_number = x := fun hc => hx hc.symm
        simp [sumPoints, List.filter_cons, this]
      rw [if_neg hx, hfil]

theorem lookup_mem_nodup :
    ∀ (m : List (Int × Int)), (m.map (·.1)).Nodup →
      ∀ kv ∈ m, lookupCum m kv.1 = some kv.2 := by
  intro m
  induction m with
  | nil => intro _ kv h; simp at h
  | cons a t ih =>
    intro hnd kv hkv
    rcases List.mem_cons.mp hkv with rfl | hkv'
    · simp [lookupCum]
    · have ha : ¬ a.1 = kv.1 := by
        intro hc
        have : a.1 ∈ t.map (·.1) := by
          rw [hc]
          exact List.mem_map.mpr ⟨kv, hkv', rfl⟩
        exact (List.nodup_cons.mp (by simpa using hnd)).1 this
      simp only [lookupCum, if_neg ha]
      exact ih (List.nodup_cons.mp (by simpa using hnd)).2 kv hkv'

theorem lookup_eq_none_of_not_mem :
    ∀ (m : List (Int × Int)) (x : Int), x ∉ m.map (·.1) → lookupCum m x = none := by
  intro m
  induction m with
  | nil => intro x _; simp [lookupCum]
  | cons a t ih =>
    intro x hx
    simp only [List.map_cons, List.mem_cons] at hx
    push_neg at hx
    simp only [lookupCum, if_neg (fun hc : a.1 = x => hx.1 hc.symm)]
    exact ih x hx.2

end CumLemmas

section KeyLemmas

theorem insertKey_perm (a : Int × String) :
    ∀ l : List (Int × String), List.Perm (insertKey a l) (a :: l) := by
  intro l
  induction l with
  | nil => simp [insertKey]
  | cons b t ih =>
    by_cases h : keyLt b a
    · simp only [insertKey, if_pos h]
      exact (ih.cons b).trans (List.Perm.swap a b t)
    · simp [insertKey, if_neg h]

theorem sortKeys_perm : ∀ l : List (Int × String), List.Perm (sortKeys l) l := by
  intro l
  induction l with
  | nil => simp [sortKeys]
  | cons x xs ih =>
    exact (insertKey_perm x (sortKeys xs)).trans (ih.cons x)

theorem raceKeys_nodup (results : List ResultRecord) : (raceKeys results).Nodup := by
  exact ((sortKeys_perm _).nodup_iff).mpr (dedup_nodup _)

theorem mem_raceKeys (results : List ResultRecord) (k : Int × String) :
    k ∈ raceKeys results ↔ ∃ r ∈ results, raceKey r = k := by
  rw [raceKeys, (sortKeys_perm _).mem_iff, mem_dedup, List.mem_map]

theorem insertKey_append (a : Int × String) :
    ∀ (s t : List (Int × String)), (∀ b ∈ t, a.1 < b.1) →
      insertKey a (s ++ t) = insertKey a s ++ t := by
  intro s
  induction s with
  | nil =>
    intro t ht
    cases t with
    | nil => simp
    | cons b t' =>
      have hb : ¬ keyLt b a := by
        have := ht b (List.mem_cons_self _ _)
        simp only [keyLt, Bool.or_eq_true, decide_eq_true_eq, Bool.and_eq_true, beq_iff_eq]
        push_neg
        constructor
        · exact le_of_lt this
        · intro he
          exact absurd (he ▸ this) (lt_irrefl _)
      simp [insertKey, hb]
  | cons c s' ih =>
    intro t ht
    by_cases h : keyLt c a
    · simp only [List.cons_append, insertKey, if_pos h, List.append_eq, ih t ht]
    · simp [insertKey, if_neg h]

theorem sortKeys_append :
    ∀ (la lb : List (Int × String)), (∀ a ∈ la, ∀ b ∈ lb, a.1 < b.1) →
      sortKeys (la ++ lb) = sortKeys la ++ sortKeys lb := by
  intro la
  induction la with
  | nil => intro lb _; simp [sortKeys]
  | cons x la' ih =>
    intro lb h
    rw [List.cons_append, sortKeys, sortKeys,
      ih lb (fun a ha b hb => h a (List.mem_cons_of_mem _ ha) b hb)]
    refine insertKey_append x _ _ ?_
    intro b hb
    exact h x (List.mem_cons_self _ _) b ((sortKeys_perm lb).mem_iff.mp hb)

end KeyLemmas

section LoopLemmas

theorem raceBlock_round (year : Int) (results : List ResultRecord) (round : Nat)
    (gp : String) (d : Int) (cum : List (Int × Int)) :
    ∀ s ∈ raceBlock year results round gp d cum, s.race_round = round := by
  intro s hs
  exact mkRecords_round year round gp _ _ _ s hs

theorem mem_standingsLoop_round (year : Int) (results : List ResultRecord) :
    ∀ (ks : List (Int × String)) (cum : List (Int × Int)) (round : Nat)
      (s : StandingRecord), s ∈ standingsLoop year results cum round ks →
        round ≤ s.race_round ∧ s.race_round < round + ks.length := by
  intro ks
  induction ks with
  | nil => intro cum round s h; simp [standingsLoop] at h
  | cons k ks' ih =>
    intro cum round s h
    rw [standingsLoop, List.mem_append] at h
    rcases h with h | h
    · have := raceBlock_round year results round k.2 k.1 _ s h
      rw [List.length_cons]
      omega
    · have := ih _ (round + 1) s h
      rw [List.length_cons]
      omega

theorem snapAt_standingsLoop (year : Int) (results : List ResultRecord) :
    ∀ (ks : List (Int × String)) (i : Nat) (hi : i < ks.length)
      (cum : List (Int × Int)) (round : Nat),
      snapAt (standingsLoop year results cum round ks) (round + i) =
        raceBlock year results (round + i) (ks.get ⟨i, hi⟩).2 (ks.get ⟨i, hi⟩).1
          (cumFold results cum (ks.take (i + 1))) := by
  intro ks
  induction ks with
  | nil => intro i hi; exact absurd hi (by simp)
  | cons k ks' ih =>
    intro i hi cum round
    rw [standingsLoop, snapAt, List.filter_append]
    cases i with
    | zero =>
      have h1 : (raceBlock year results round k.2 k.1
          (updateCum cum (raceRows results k))).filter
            (fun s => s.race_round = round + 0) =
          raceBlock year results round k.2 k.1 (updateCum cum (raceRows results k)) := by
        refine List.filter_eq_self.mpr ?_
        intro s hs
        have := raceBlock_round year results round k.2 k.1 _ s hs
        simp [this]
      have h2 : (standingsLoop year results (updateCum cum (raceRows results k))
          (round + 1) ks').filter (fun s => s.race_round = round + 0) = [] := by
        refine List.filter_eq_nil_iff.mpr ?_
        intro s hs
        have := mem_standingsLoop_round year results ks' _ (round + 1) s hs
        simp only [decide_eq_true_eq]
        omega
      rw [h1, h2, List.append_nil]
      simp [cumFold, List.take, List.foldl_cons]
    | succ j =>
      have h1 : (raceBlock year results round k.2 k.1
          (updateCum cum (raceRows results k))).filter
            (fun s => s.race_round = round + (j + 1)) = [] := by
        refine List.filter_eq_nil_iff.mpr ?_
        intro s hs
        have := raceBlock_round year results round k.2 k.1 _ s hs
        simp only [decide_eq_true_eq]
        omega
      have hj : j < ks'.length := by simpa using hi
      have h2 := ih j hj (updateCum cum (raceRows results k)) (round + 1)
      rw [h1, List.nil_append]
      have harith : round + 1 + j = round + (j + 1) := by omega
      rw [← harith]
      rw [snapAt] at h2
      rw [h2]
      simp [cumFold, List.take, List.foldl_cons]

theorem snapAt_transform (year : Int) (results : List ResultRecord) (R : Nat)
    (h1 : 1 ≤ R) (h2 : R - 1 < (raceKeys results).length) :
    snapAt (transform_championship_standings year results) R =
      raceBlock year results R ((raceKeys results).get ⟨R - 1, h2⟩).2
        ((raceKeys results).get ⟨R - 1, h2⟩).1
        (cumFold results [] ((raceKeys results).take R)) := by
  rw [transform_championship_standings]
  have := snapAt_standingsLoop year results (raceKeys results) (R - 1) h2 [] 1
  have hR : 1 + (R - 1) = R := by omega
  rw [hR] at this
  rw [this]
  have hR2 : R - 1 + 1 = R := by omega
  rw [hR2]

theorem mem_transform_round (year : Int) (results : List ResultRecord)
    (s : StandingRecord) (hs : s ∈ transform_championship_standings year results) :
    1 ≤ s.race_round ∧ s.race_round ≤ (raceKeys results).length := by
  have := mem_standingsLoop_round year results (raceKeys results) [] 1 s hs
  omega

end LoopLemmas

section BridgeLemmas

theorem appendNew_append (acc : List Int) (a b : List Int) :
    appendNew acc (a ++ b) = appendNew (appendNew acc a) b := by
  simp [appendNew, List.foldl_append]

theorem cumFold_map_fst (results : List ResultRecord) :
    ∀ (ks : List (Int × String)) (m : List (Int × Int)),
      (cumFold results m ks).map (·.1) =
        appendNew (m.map (·.1))
          ((ks.map (fun k => (raceRows results k).map (·.driver_number))).flatten) := by
  intro ks
  induction ks with
  | nil => intro m; simp [cumFold, appendNew]
  | cons k ks' ih =>
    intro m
    have hstep : cumFold results m (k :: ks') =
        cumFold results (updateCum m (raceRows results k)) ks' := by
      simp [cumFold, List.foldl_cons]
    rw [hstep, ih, updateCum_map_fst, List.map_cons, List.flatten_cons, appendNew_append]

/-- The distinct drivers appearing in races `1..R`, in first-appearance
order over the race-grouped rows. -/
def seasonDrivers (results : List ResultRecord) (R : Nat) : List Int :=
  dedup (((racesUpTo results R).flatten).map (·.driver_number))

theorem cumFold_take_map_fst (results : List ResultRecord) (R : Nat) :
    (cumFold results [] ((raceKeys results).take R)).map (·.1) = seasonDrivers results R := by
  rw [cumFold_map_fst]
  simp only [List.map_nil]
  rw [appendNew_eq_dedup, List.nil_append, seasonDrivers, racesUpTo]
  have hf : ∀ l : List Int, l.filter (fun n => n ∉ ([] : List Int)) = l := by
    intro l
    refine List.filter_eq_self.mpr ?_
    intro a _
    simp
  rw [hf]
  congr 1
  rw [List.map_flatten, List.map_map]
  rfl

theorem cumFold_nodup_fst (results : List ResultRecord) (ks : List (Int × String)) :
    ((cumFold results [] ks).map (·.1)).Nodup := by
  rw [cumFold_map_fst]
  exact appendNew_nodup _ _ (by simp)

theorem mem_cumFold_fst (results : List ResultRecord) (ks : List (Int × String)) (x : Int) :
    x ∈ (cumFold results [] ks).map (·.1) ↔
      ∃ k ∈ ks, x ∈ (raceRows results k).map (·.driver_number) := by
  rw [cumFold_map_fst, mem_appendNew]
  simp only [List.map_nil, List.not_mem_nil, false_or]
  rw [List.mem_flatten]
  constructor
  · rintro ⟨l, hl, hx⟩
    obtain ⟨k, hk, rfl⟩ := List.mem_map.mp hl
    exact ⟨k, hk, hx⟩
  · rintro ⟨k, hk, hx⟩
    exact ⟨(raceRows results k).map (·.driver_number), List.mem_map.mpr ⟨k, hk, rfl⟩, hx⟩

theorem cumFold_lookup_getD (results : List ResultRecord) :
    ∀ (ks : List (Int × String)) (m : List (Int × Int)) (x : Int),
      (lookupCum (cumFold results m ks) x).getD 0 =
        (lookupCum m x).getD 0 + (ks.map (fun k => sumPoints (raceRows results k) x)).sum := by
  intro ks
  induction ks with
  | nil => intro m x; simp [cumFold]
  | cons k ks' ih =>
    intro m x
    have hstep : cumFold results m (k :: ks') =
        cumFold results (updateCum m (raceRows results k)) ks' := by
      simp [cumFold, List.foldl_cons]
    rw [hstep, ih, updateCum_lookup_getD, List.map_cons, List.sum_cons]
    ring

theorem cumFold_take_lookup (results : List ResultRecord) (R : Nat) (x : Int) :
    (lookupCum (cumFold results [] ((raceKeys results).take R)) x).getD 0 =
      seasonPoints results R x := by
  rw [cumFold_lookup_getD]
  simp only [lookupCum, Option.getD_none, Int.zero_add]
  rw [seasonPoints, racesUpTo, List.map_map]
  rfl

theorem buildStandings_map_driver (results : List ResultRecord) (d : Int)
    (cum : List (Int × Int)) :
    (buildStandings results d cum).map (·.driver_number) = cum.map (·.1) := by
  rw [buildStandings, List.map_map]
  rfl

theorem mem_buildStandings (results : List ResultRecord) (d : Int)
    (cum : List (Int × Int)) (st : Standing) :
    st ∈ buildStandings results d cum ↔
      ∃ kv ∈ cum, mkStanding results d kv.1 kv.2 = st := by
  rw [buildStandings, List.mem_map]

theorem raceBlock_map_driver (year : Int) (results : List ResultRecord) (round : Nat)
    (gp : String) (d : Int) (cum : List (Int × Int)) :
    (raceBlock year results round gp d cum).map (·.driver_number) =
      (sortStandings (buildStandings results d cum)).map (·.driver_number) := by
  rw [raceBlock, mkRecords_map_driver]

theorem raceBlock_mem_standing (year : Int) (results : List ResultRecord) (round : Nat)
    (gp : String) (d : Int) (cum : List (Int × Int)) (s : StandingRecord)
    (hs : s ∈ raceBlock year results round gp d cum) :
    ∃ kv ∈ cum, s.driver_number = kv.1 ∧ s.points = kv.2 ∧
      s.driver_name = (mkStanding results d kv.1 kv.2).driver_name ∧
      s.team_name = (mkStanding results d kv.1 kv.2).team_name ∧
      s.wins = (mkStanding results d kv.1 kv.2).wins ∧
      s.podiums = (mkStanding results d kv.1 kv.2).podiums ∧
      s.points_finishes = (mkStanding results d kv.1 kv.2).points_finishes := by
  rw [raceBlock] at hs
  obtain ⟨st, hst, hdn, hdname, htname, hpts, hw, hpod, hpf, _⟩ :=
    mkRecords_mem year round gp _ _ _ s hs
  have hst2 : st ∈ buildStandings results d cum :=
    (sortStandings_perm _).subset hst
  obtain ⟨kv, hkv, hkv2⟩ := (mem_buildStandings results d cum st).mp hst2
  subst hkv2
  exact ⟨kv, hkv, hdn, hpts, hdname, htname, hw, hpod, hpf⟩

end BridgeLemmas

section BuilderClaims

/-- A session whose only classified driver finished P1, set a lap, and is
disqualified (`dsq = true`). -/
def sessionC2 : RaceSession :=
  { race_date := 1
    meeting_name := "GP1"
    circuit_short_name := "C1"
    session_results :=
      [ { driver_number := 1, position := some 1, dnf := false, dns := false, dsq := true } ]
    drivers :=
      [ { driver_number := 1, full_name := "A", name_acronym := "AAA", team_name := "TA" } ]
    starting_grid := [ { driver_number := 1, position := 1 } ]
    laps := [ { driver_number := 1, lap_duration := some 90 } ]
    penalties := [] }

/-- C2 counterexample: a driver with `dsq = true`, classified P1 with a
recorded lap, is built with `points = 26` (25 table points plus the
fastest-lap bonus), not 0 — `_calculate_points` never consults `dsq`. -/
theorem dsq_points_not_zero_cex :
    (transform_grand_prix_results 2024 [sessionC2]).map
        (fun r => (r.driver_number, r.dsq, r.points)) = [(1, true, 26)] := by
  decide

/-- C2 amended: the `dsq` flag is copied onto the built record but has no
effect on any other field; in particular a disqualified driver scores
exactly the points of an identical non-disqualified driver (table points
plus any fastest-lap bonus). -/
theorem points_independent_of_dsq (year : Int) (s : RaceSession)
    (result : SessionResultRow) (b : Bool) :
    buildResultRecord year s { result with dsq := b } =
      (buildResultRecord year s result).map (fun rec => { rec with dsq := b }) := by
  rw [buildResultRecord, buildResultRecord]
  cases hd : (s.drivers.filter (fun dr => dr.driver_number = result.driver_number)).head? with
  | none => simp [hd]
  | some di => simp [hd]

/-- A session whose raw race-control data records a 5-second penalty for
driver 1. -/
def sessionC9 : RaceSession :=
  { race_date := 1
    meeting_name := "GP1"
    circuit_short_name := "C1"
    session_results :=
      [ { driver_number := 1, position := some 1, dnf := false, dns := false, dsq := false } ]
    drivers :=
      [ { driver_number := 1, full_name := "A", name_acronym := "AAA", team_name := "TA" } ]
    starting_grid := [ { driver_number := 1, position := 1 } ]
    laps := []
    penalties := [ { driver_number := 1, penalty_seconds := 5 } ] }

/-- C9 counterexample: the session records one penalty event of 5 seconds
for driver 1, yet the built record has `total_time_penalty = 0`, because
`_get_penalties` discards the session's penalty events. -/
theorem penalty_total_ignores_events_cex :
    sessionC9.penalties = [ { driver_number := 1, penalty_seconds := 5 } ] ∧
    (transform_grand_prix_results 2024 [sessionC9]).map
        (fun r => (r.driver_number, r.total_time_penalty)) = [(1, 0)] := by
  constructor
  · rfl
  · decide

/-- C9 amended: `total_time_penalty` is always 0 — `_get_penalties` is a
stub returning no events, so the (correct) aggregation sums an empty
list — and the session's recorded penalty events have no effect on the
built record at all; points are computed independently of penalties. -/
theorem penalty_total_always_zero (year : Int) (s : RaceSession)
    (result : SessionResultRow) (rec : ResultRecord)
    (h : buildResultRecord year s result = some rec) :
    rec.total_time_penalty = 0 ∧
      ∀ pens : List PenaltyRow,
        buildResultRecord year { s with penalties := pens } result =
          buildResultRecord year s result := by
  constructor
  · rw [buildResultRecord] at h
    cases hd : (s.drivers.filter (fun dr => dr.driver_number = result.driver_number)).head? with
    | none => rw [hd] at h; simp at h
    | some di =>
      rw [hd] at h
      simp only [Option.some.injEq] at h
      subst h
      simp [_get_penalties]
  · intro pens
    rw [buildResultRecord, buildResultRecord]
    cases hd : (s.drivers.filter (fun dr => dr.driver_number = result.driver_number)).head? with
    | none => simp [hd]
    | some di => simp [hd, _get_penalties]

/-- C9 witness: the amended theorem applied to the concrete session with a
recorded penalty event. -/
theorem penalty_total_always_zero_witness :
    ∃ rec, buildResultRecord 2024 sessionC9
        { driver_number := 1, position := some 1, dnf := false, dns := false, dsq := false } =
          some rec ∧
      rec.total_time_penalty = 0 ∧
      ∀ pens : List PenaltyRow,
        buildResultRecord 2024 { sessionC9 with penalties := pens }
            { driver_number := 1, position := some 1, dnf := false, dns := false, dsq := false } =
          buildResultRecord 2024 sessionC9
            { driver_number := 1, position := some 1, dnf := false, dns := false, dsq := false } := by
  refine ⟨_, rfl, ?_⟩
  exact penalty_total_always_zero 2024 sessionC9 _ _ rfl

end BuilderClaims

section FastestLapLemmas

theorem head_filter_map_key {β : Type} (g : Int → β) (n : Int) :
    ∀ l : List Int,
      ((l.map (fun x => (x, g x))).filter (fun p => p.1 = n)).head? =
        if n ∈ l then some (n, g n) else none := by
  intro l
  induction l with
  | nil => simp
  | cons x xs ih =>
    by_cases hx : x = n
    · subst hx
      simp [List.filter_cons]
    · have hnx : ¬ n = x := fun hc => hx hc.symm
      by_cases hm : n ∈ xs
      · simp [List.filter_cons, hx, hm, hnx, ih]
      · simp [List.filter_cons, hx, hm, hnx, ih]

theorem filterMap_key_eq_nil_iff (n : Int) :
    ∀ ps : List (Int × Int),
      ps.filterMap (fun p => if p.1 = n then some p.2 else none) = [] ↔
        n ∉ ps.map (·.1) := by
  intro ps
  induction ps with
  | nil => simp
  | cons p ps' ih =>
    by_cases hp : p.1 = n
    · simp [List.filterMap_cons, hp]
    · have hnp : ¬ n = p.1 := fun hc => hp hc.symm
      simp [List.filterMap_cons, hp, hnp, ih]

theorem foldl_min_mem : ∀ (rest : List Int) (d : Int), rest.foldl min d ∈ d :: rest := by
  intro rest
  induction rest with
  | nil => intro d; simp
  | cons r rest' ih =>
    intro d
    rw [List.foldl_cons]
    have hmem := ih (min d r)
    rcases List.mem_cons.mp hmem with h | h
    · rw [h]
      rcases min_choice d r with hm | hm
      · rw [hm]
        exact List.mem_cons_self _ _
      · rw [hm]
        exact List.mem_cons_of_mem _ (List.mem_cons_self _ _)
    · exact List.mem_cons_of_mem _ (List.mem_cons_of_mem _ h)

theorem foldl_min_le :
    ∀ (rest : List Int) (d : Int) (x : Int), x ∈ d :: rest → rest.foldl min d ≤ x := by
  intro rest
  induction rest with
  | nil =>
    intro d x hx
    simp at hx
    subst hx
    simp
  | cons r rest' ih =>
    intro d x hx
    rw [List.foldl_cons]
    rcases List.mem_cons.mp hx with h | hx'
    · subst h
      exact le_trans (ih (min x r) (min x r) (List.mem_cons_self _ _)) (min_le_left _ _)
    · rcases List.mem_cons.mp hx' with h | hx''
      · subst h
        exact le_trans (ih (min d x) (min d x) (List.mem_cons_self _ _)) (min_le_right _ _)
      · exact ih (min d r) x (List.mem_cons_of_mem _ hx'')

theorem get_fastest_laps_head (laps : List LapRow) (n : Int) :
    (((_get_fastest_laps laps).filter (fun p => p.1 = n)).head?).map (·.2) =
      match driverLaps laps n with
      | [] => none
      | d :: rest => some (rest.foldl min d) := by
  rw [_get_fastest_laps, head_filter_map_key (fastestLapOf laps) n]
  by_cases hm : n ∈ dedup ((laps.filterMap
      (fun l => l.lap_duration.map (fun d => (l.driver_number, d)))).map (·.1))
  · rw [if_pos hm]
    have hne : driverLaps laps n ≠ [] := by
      intro hc
      rw [driverLaps] at hc
      exact absurd ((mem_dedup _ n).mp hm) ((filterMap_key_eq_nil_iff n _).mp hc)
    cases hd : driverLaps laps n with
    | nil => exact absurd hd hne
    | cons d rest =>
      have hfl : fastestLapOf laps n = rest.foldl min d := by
        simp [fastestLapOf, hd]
      simp [hfl]
  · have hnil : driverLaps laps n = [] := by
      rw [driverLaps, filterMap_key_eq_nil_iff]
      intro hc
      exact hm ((mem_dedup _ n).mpr hc)
    rw [if_neg hm, hnil]
    rfl

/-- Shape of a successfully built record: the fields the fastest-lap and
penalty claims read, expressed in terms of the raw inputs. -/
theorem buildResultRecord_some (year : Int) (s : RaceSession)
    (result : SessionResultRow) (rec : ResultRecord)
    (h : buildResultRecord year s result = some rec) :
    rec.fastest_lap =
      (((_get_fastest_laps s.laps).filter
        (fun p => p.1 = result.driver_number)).head?).map (·.2) ∧
    rec.points = _calculate_points result.position
      (rec.fastest_lap.isSome && optLe10 result.position) ∧
    rec.final_position = result.position ∧ rec.dsq = result.dsq := by
  rw [buildResultRecord] at h
  cases hd : (s.drivers.filter (fun dr => dr.driver_number = result.driver_number)).head? with
  | none => rw [hd] at h; simp at h
  | some di =>
    rw [hd] at h
    simp only [Option.some.injEq] at h
    subst h
    exact ⟨rfl, rfl, rfl, rfl⟩

theorem fastestLapOf_eq (laps : List LapRow) (n : Int) :
    fastestLapOf laps n =
      match driverLaps laps n with
      | [] => 0
      | d :: rest => rest.foldl min d := rfl

end FastestLapLemmas

section FastestLapClaims

/-- A session with two classified drivers, both inside the top 10: driver
1 (P1) with best lap 90 — the field-wide fastest — and driver 2 (P2) with
best lap 100. -/
def sessionC8 : RaceSession :=
  { race_date := 1
    meeting_name := "GP1"
    circuit_short_name := "C1"
    session_results :=
      [ { driver_number := 1, position := some 1, dnf := false, dns := false, dsq := false }
      , { driver_number := 2, position := some 2, dnf := false, dns := false, dsq := false } ]
    drivers :=
      [ { driver_number := 1, full_name := "A", name_acronym := "AAA", team_name := "TA" }
      , { driver_number := 2, full_name := "B", name_acronym := "BBB", team_name := "TB" } ]
    starting_grid :=
      [ { driver_number := 1, position := 1 }, { driver_number := 2, position := 2 } ]
    laps := [ { driver_number := 1, lap_duration := some 90 }
            , { driver_number := 2, lap_duration := some 100 } ]
    penalties := [] }

/-- C8 counterexample: driver 2's best lap (100) is not the field-wide
minimum (driver 1's 90), yet driver 2 is built with `points = 19`
(18 table points for P2 plus the +1 fastest-lap bonus): the bonus is
awarded to every top-10 driver with any recorded lap, not only to the
single driver holding the field-wide fastest lap. -/
theorem fastest_lap_bonus_not_unique_cex :
    (transform_grand_prix_results 2024 [sessionC8]).map
        (fun r => (r.driver_number, r.final_position, r.fastest_lap, r.points)) =
      [(1, some 1, some 90, 26), (2, some 2, some 100, 19)] := by
  decide

/-- C8 amended: each record's `fastest_lap` is the minimum of that
driver's own non-null laps (none when the driver has no recorded lap),
and the +1 bonus is added exactly when the driver has any recorded lap
and a classified position `<= 10` — independently of the other drivers'
lap times. -/
theorem fastest_lap_is_own_minimum (year : Int) (s : RaceSession)
    (result : SessionResultRow) (rec : ResultRecord)
    (h : buildResultRecord year s result = some rec) :
    (rec.fastest_lap = none ↔ driverLaps s.laps result.driver_number = []) ∧
    (∀ v, rec.fastest_lap = some v →
      v ∈ driverLaps s.laps result.driver_number ∧
        ∀ d ∈ driverLaps s.laps result.driver_number, v ≤ d) ∧
    rec.points = _calculate_points result.position
      (rec.fastest_lap.isSome && optLe10 result.position) := by
  obtain ⟨hfast, hpts, _, _⟩ := buildResultRecord_some year s result rec h
  rw [get_fastest_laps_head] at hfast
  cases hl : driverLaps s.laps result.driver_number with
  | nil =>
    rw [hl] at hfast
    refine ⟨by simp [hfast], ?_, hpts⟩
    intro v hv
    rw [hfast] at hv
    exact absurd hv (by simp)
  | cons d rest =>
    rw [hl] at hfast
    refine ⟨by simp [hfast], ?_, hpts⟩
    intro v hv
    rw [hfast] at hv
    simp only [Option.some.injEq] at hv
    subst hv
    exact ⟨foldl_min_mem rest d, fun x hx => foldl_min_le rest d x hx⟩

/-- C8 witness: the amended theorem applied to driver 2 of the concrete
session — its `fastest_lap` is its own lap 100, and its points include
the bonus. -/
theorem fastest_lap_is_own_minimum_witness :
    ∃ rec, buildResultRecord 2024 sessionC8
        { driver_number := 2, position := some 2, dnf := false, dns := false, dsq := false } =
          some rec ∧
      (rec.fastest_lap = none ↔ driverLaps sessionC8.laps 2 = []) ∧
      (∀ v, rec.fastest_lap = some v →
        v ∈ driverLaps sessionC8.laps 2 ∧ ∀ d ∈ driverLaps sessionC8.laps 2, v ≤ d) ∧
      rec.points = _calculate_points (some 2) (rec.fastest_lap.isSome && optLe10 (some 2)) := by
  refine ⟨_, rfl, ?_⟩
  exact fastest_lap_is_own_minimum 2024 sessionC8
    { driver_number := 2, position := some 2, dnf := false, dns := false, dsq := false } _ rfl

end FastestLapClaims

section SnapLemmas

theorem mkRecords_length (year : Int) (round : Nat) (gp : String) (leader : Int) :
    ∀ (l : List Standing) (pos : Nat),
      (mkRecords year round gp leader pos l).length = l.length := by
  intro l
  induction l with
  | nil => intro pos; simp [mkRecords]
  | cons s rest ih => intro pos; simp [mkRecords, ih (pos + 1)]

theorem mem_snapAt (out : List StandingRecord) (R : Nat) (s : StandingRecord) :
    s ∈ snapAt out R ↔ s ∈ out ∧ s.race_round = R := by
  rw [snapAt, List.mem_filter]
  simp

theorem snapAt_transform_zero (year : Int) (results : List ResultRecord) :
    snapAt (transform_championship_standings year results) 0 = [] := by
  rw [snapAt]
  refine List.filter_eq_nil_iff.mpr ?_
  intro s hs
  have := mem_transform_round year results s hs
  simp only [decide_eq_true_eq]
  omega

theorem raceBlock_map_position (year : Int) (results : List ResultRecord) (round : Nat)
    (gp : String) (d : Int) (cum : List (Int × Int)) :
    (raceBlock year results round gp d cum).map (·.position) =
      List.range' 1 (raceBlock year results round gp d cum).length := by
  rw [raceBlock, mkRecords_map_position, mkRecords_length]

theorem sumPoints_nonneg (rows : List ResultRecord) (n : Int)
    (h : ∀ r ∈ rows, 0 ≤ r.points) : 0 ≤ sumPoints rows n := by
  rw [sumPoints]
  refine List.sum_nonneg ?_
  intro x hx
  obtain ⟨r, hr, rfl⟩ := List.mem_map.mp hx
  exact h r (List.mem_of_mem_filter hr)

theorem seasonPoints_mono (results : List ResultRecord)
    (hnn : ∀ r ∈ results, 0 ≤ r.points) (n : Int) (R1 R2 : Nat) (h : R1 ≤ R2) :
    seasonPoints results R1 n ≤ seasonPoints results R2 n := by
  rw [seasonPoints, seasonPoints, racesUpTo, racesUpTo]
  rw [show R2 = R1 + (R2 - R1) by omega, List.take_add, List.map_append, List.map_append,
    List.sum_append]
  refine le_add_of_nonneg_right ?_
  refine List.sum_nonneg ?_
  intro x hx
  obtain ⟨rows, hrows, rfl⟩ := List.mem_map.mp hx
  obtain ⟨k, _, rfl⟩ := List.mem_map.mp hrows
  refine sumPoints_nonneg _ _ ?_
  intro r hr
  exact hnn r (List.mem_of_mem_filter hr)

end SnapLemmas

section StandingsInvariantClaims

/-- C6: for every race round `R` of the season, the emitted snapshot set
contains exactly one entry per driver who appeared in any of races `1..R`
(drivers absent from race `R` included), and its `position` fields are
exactly `1, 2, ..., K` in emission order. -/
theorem snapshot_positions_complete (year : Int) (results : List ResultRecord) (R : Nat)
    (hR : R ≤ (raceKeys results).length) :
    ((snapAt (transform_championship_standings year results) R).map (·.position) =
      List.range' 1 (snapAt (transform_championship_standings year results) R).length) ∧
    ((snapAt (transform_championship_standings year results) R).map (·.driver_number)).Nodup ∧
    (∀ n : Int,
      n ∈ (snapAt (transform_championship_standings year results) R).map (·.driver_number) ↔
        ∃ rows ∈ racesUpTo results R, n ∈ rows.map (·.driver_number)) := by
  by_cases hR0 : R = 0
  · subst hR0
    rw [snapAt_transform_zero]
    refine ⟨rfl, List.nodup_nil, ?_⟩
    intro n
    simp [racesUpTo]
  · have h1 : 1 ≤ R := by omega
    have h2 : R - 1 < (raceKeys results).length := by omega
    rw [snapAt_transform year results R h1 h2]
    refine ⟨raceBlock_map_position _ _ _ _ _ _, ?_, ?_⟩
    · rw [raceBlock_map_driver]
      have hperm := (sortStandings_perm
        (buildStandings results ((raceKeys results).get ⟨R - 1, h2⟩).1
          (cumFold results [] ((raceKeys results).take R)))).map (·.driver_number)
      refine hperm.nodup_iff.mpr ?_
      rw [buildStandings_map_driver]
      exact cumFold_nodup_fst results _
    · intro n
      rw [raceBlock_map_driver]
      have hperm := (sortStandings_perm
        (buildStandings results ((raceKeys results).get ⟨R - 1, h2⟩).1
          (cumFold results [] ((raceKeys results).take R)))).map (·.driver_number)
      rw [hperm.mem_iff, buildStandings_map_driver, mem_cumFold_fst]
      constructor
      · rintro ⟨k, hk, hn⟩
        exact ⟨raceRows results k, List.mem_map.mpr ⟨k, hk, rfl⟩, hn⟩
      · rintro ⟨rows, hrows, hn⟩
        obtain ⟨k, hk, rfl⟩ := List.mem_map.mp hrows
        exact ⟨k, hk, hn⟩

/-- C6 witness: the theorem at a concrete two-race season. -/
def rowsC6 : List ResultRecord :=
  [ { date := 1, year := 2024, grand_prix := "GA", circuit_name := "C",
      driver_number := 1, driver_name := "A", driver_acronym := "AAA", team_name := "TA",
      starting_grid_position := some 1, final_position := some 1, points := 25,
      fastest_lap := none, total_time_penalty := 0, dnf := false, dns := false, dsq := false }
  , { date := 2, year := 2024, grand_prix := "GB", circuit_name := "C",
      driver_number := 2, driver_name := "B", driver_acronym := "BBB", team_name := "TB",
      starting_grid_position := some 1, final_position := some 1, points := 25,
      fastest_lap := none, total_time_penalty := 0, dnf := false, dns := false, dsq := false } ]

theorem snapshot_positions_complete_witness :
    (2 ≤ (raceKeys rowsC6).length) ∧
    (((snapAt (transform_championship_standings 2024 rowsC6) 2).map (·.position) =
      List.range' 1 (snapAt (transform_championship_standings 2024 rowsC6) 2).length) ∧
    ((snapAt (transform_championship_standings 2024 rowsC6) 2).map (·.driver_number)).Nodup ∧
    (∀ n : Int,
      n ∈ (snapAt (transform_championship_standings 2024 rowsC6) 2).map (·.driver_number) ↔
        ∃ rows ∈ racesUpTo rowsC6 2, n ∈ rows.map (·.driver_number))) :=
  ⟨by decide, snapshot_positions_complete 2024 rowsC6 2 (by decide)⟩

section GapLemmas

theorem mkRecords_head_points (year : Int) (round : Nat) (gp : String) (leader : Int)
    (pos : Nat) (l : List Standing) :
    (mkRecords year round gp leader pos l).head?.map (·.points) =
      l.head?.map (·.points) := by
  cases l <;> simp [mkRecords]

theorem chain_head_max (h0 : Standing) (rest : List Standing)
    (hchain : List.Chain' (fun a b => b.points ≤ a.points) (h0 :: rest)) :
    ∀ st ∈ h0 :: rest, st.points ≤ h0.points := by
  haveI : IsTrans Standing (fun a b => b.points ≤ a.points) :=
    ⟨fun a b c h1 h2 => le_trans h2 h1⟩
  have hpw := List.chain'_iff_pairwise.mp hchain
  intro st hst
  rcases List.mem_cons.mp hst with rfl | hst'
  · exact le_refl _
  · exact (List.pairwise_cons.mp hpw).1 st hst'

theorem raceBlock_head_behind (year : Int) (results : List ResultRecord) (round : Nat)
    (gp : String) (d : Int) (cum : List (Int × Int)) :
    ∀ s0, (raceBlock year results round gp d cum).head? = some s0 →
      s0.points_behind_leader = 0 := by
  rw [raceBlock]
  cases hsort : sortStandings (buildStandings results d cum) with
  | nil => intro s0 hs0; simp [mkRecords] at hs0
  | cons h0 rest =>
    intro s0 hs0
    simp only [mkRecords, List.head?_cons, Option.some.injEq] at hs0
    subst hs0
    simp

theorem raceBlock_behind (year : Int) (results : List ResultRecord) (round : Nat)
    (gp : String) (d : Int) (cum : List (Int × Int)) :
    ∀ s ∈ raceBlock year results round gp d cum,
      s.points_behind_leader =
        (((raceBlock year results round gp d cum).head?.map (·.points)).getD 0) - s.points ∧
      0 ≤ s.points_behind_leader := by
  intro s hs
  rw [raceBlock, mkRecords_head_points]
  rw [raceBlock] at hs
  cases hsort : sortStandings (buildStandings results d cum) with
  | nil =>
    rw [hsort] at hs
    simp [mkRecords] at hs
  | cons h0 rest =>
    rw [hsort] at hs
    obtain ⟨st, hst, _, _, _, hpts, _, _, _, hbehind⟩ :=
      mkRecords_mem year round gp _ _ _ s hs
    have hmax := chain_head_max h0 rest (by rw [← hsort]; exact sortStandings_chain _) st hst
    constructor
    · rw [hbehind, hpts]
    · rw [hbehind]
      simp only [List.head?_cons, Option.map_some', Option.getD_some]
      omega

theorem raceBlock_chain_behind (year : Int) (results : List ResultRecord) (round : Nat)
    (gp : String) (d : Int) (cum : List (Int × Int)) :
    List.Chain' (fun a b => a.points_behind_leader ≤ b.points_behind_leader)
      (raceBlock year results round gp d cum) := by
  refine (List.chain'_map (fun s : StandingRecord => s.points_behind_leader)).mp ?_
  rw [raceBlock, mkRecords_map_behind]
  refine (List.chain'_map (fun st : Standing =>
    (((sortStandings (buildStandings results d cum)).head?.map (·.points)).getD 0) -
      st.points)).mpr ?_
  refine (sortStandings_chain _).imp ?_
  intro a b hab
  omega

theorem raceBlock_chain_ahead (year : Int) (results : List ResultRecord) (round : Nat)
    (gp : String) (d : Int) (cum : List (Int × Int)) :
    List.Chain' (fun a b => a.points_ahead_next = a.points - b.points)
      (raceBlock year results round gp d cum) := by
  rw [raceBlock]
  exact mkRecords_chain_ahead year round gp _ _ 1

theorem raceBlock_last_ahead (year : Int) (results : List ResultRecord) (round : Nat)
    (gp : String) (d : Int) (cum : List (Int × Int)) :
    ∀ sl, (raceBlock year results round gp d cum).getLast? = some sl →
      sl.points_ahead_next = 0 := by
  rw [raceBlock]
  intro sl hsl
  exact mkRecords_getLast_ahead year round gp _ _ 1 sl hsl

end GapLemmas

section GapClaims

/-- C7: in every emitted snapshot set, the first (rank-1) entry has
`points_behind_leader = 0`; every entry's `points_behind_leader` is the
leader's points minus its own and is non-negative, non-decreasing along
the ranking; and `points_ahead_next` of each entry is its points minus the
next-ranked entry's points, 0 for the last entry. -/
theorem snapshot_gap_fields (year : Int) (results : List ResultRecord) (R : Nat)
    (hR : R ≤ (raceKeys results).length) :
    (∀ s0, (snapAt (transform_championship_standings year results) R).head? = some s0 →
      s0.points_behind_leader = 0) ∧
    (∀ s ∈ snapAt (transform_championship_standings year results) R,
      s.points_behind_leader =
        (((snapAt (transform_championship_standings year results) R).head?.map
          (·.points)).getD 0) - s.points ∧
      0 ≤ s.points_behind_leader) ∧
    List.Chain' (fun a b => a.points_behind_leader ≤ b.points_behind_leader)
      (snapAt (transform_championship_standings year results) R) ∧
    List.Chain' (fun a b => a.points_ahead_next = a.points - b.points)
      (snapAt (transform_championship_standings year results) R) ∧
    (∀ sl, (snapAt (transform_championship_standings year results) R).getLast? = some sl →
      sl.points_ahead_next = 0) := by
  by_cases hR0 : R = 0
  · subst hR0
    rw [snapAt_transform_zero]
    refine ⟨?_, ?_, List.chain'_nil, List.chain'_nil, ?_⟩
    · intro s0 hs0; simp at hs0
    · intro s hs; simp at hs
    · intro sl hsl; simp at hsl
  · have h1 : 1 ≤ R := by omega
    have h2 : R - 1 < (raceKeys results).length := by omega
    rw [snapAt_transform year results R h1 h2]
    exact ⟨raceBlock_head_behind year results R _ _ _,
      raceBlock_behind year results R _ _ _,
      raceBlock_chain_behind year results R _ _ _,
      raceBlock_chain_ahead year results R _ _ _,
      raceBlock_last_ahead year results R _ _ _⟩

/-- C7 witness: the theorem at the concrete two-race season. -/
theorem snapshot_gap_fields_witness :
    (2 ≤ (raceKeys rowsC6).length) ∧
    ((∀ s0, (snapAt (transform_championship_standings 2024 rowsC6) 2).head? = some s0 →
      s0.points_behind_leader = 0) ∧
    (∀ s ∈ snapAt (transform_championship_standings 2024 rowsC6) 2,
      s.points_behind_leader =
        (((snapAt (transform_championship_standings 2024 rowsC6) 2).head?.map
          (·.points)).getD 0) - s.points ∧
      0 ≤ s.points_behind_leader) ∧
    List.Chain' (fun a b => a.points_behind_leader ≤ b.points_behind_leader)
      (snapAt (transform_championship_standings 2024 rowsC6) 2) ∧
    List.Chain' (fun a b => a.points_ahead_next = a.points - b.points)
      (snapAt (transform_championship_standings 2024 rowsC6) 2) ∧
    (∀ sl, (snapAt (transform_championship_standings 2024 rowsC6) 2).getLast? = some sl →
      sl.points_ahead_next = 0)) :=
  ⟨by decide, snapshot_gap_fields 2024 rowsC6 2 (by decide)⟩

end GapClaims

section PointsSumLemmas

theorem snapAt_points_eq (year : Int) (results : List ResultRecord) (R : Nat)
    (s : StandingRecord) (hs : s ∈ snapAt (transform_championship_standings year results) R) :
    s.points = seasonPoints results R s.driver_number := by
  obtain ⟨hout, hround⟩ := (mem_snapAt _ _ _).mp hs
  obtain ⟨hb1, hb2⟩ := mem_transform_round year results s hout
  have h1 : 1 ≤ R := by omega
  have h2 : R - 1 < (raceKeys results).length := by omega
  rw [snapAt_transform year results R h1 h2] at hs
  obtain ⟨kv, hkv, hdn, hpts, _⟩ := raceBlock_mem_standing year results R _ _ _ s hs
  have hnod := cumFold_nodup_fst results ((raceKeys results).take R)
  have hlook := lookup_mem_nodup _ hnod kv hkv
  have hval : kv.2 = (lookupCum (cumFold results [] ((raceKeys results).take R)) kv.1).getD 0 := by
    rw [hlook]
    rfl
  rw [hpts, hval, cumFold_take_lookup, hdn]

end PointsSumLemmas

section PointsSumClaims

/-- C5: every snapshot entry's points equal the sum of that driver's
per-race points over races `1..R` in chronological order, and with
non-negative per-race points the snapshot points of a driver never
decrease from one round to a later one. -/
theorem snapshot_points_eq_season_sum (year : Int) (results : List ResultRecord)
    (hnn : ∀ r ∈ results, 0 ≤ r.points) :
    (∀ R : Nat, ∀ s ∈ snapAt (transform_championship_standings year results) R,
      s.points = seasonPoints results R s.driver_number) ∧
    (∀ R1 R2 : Nat, ∀ s1 s2 : StandingRecord,
      s1 ∈ snapAt (transform_championship_standings year results) R1 →
      s2 ∈ snapAt (transform_championship_standings year results) R2 →
      s1.driver_number = s2.driver_number → R1 ≤ R2 → s1.points ≤ s2.points) := by
  refine ⟨fun R s hs => snapAt_points_eq year results R s hs, ?_⟩
  intro R1 R2 s1 s2 h1 h2 hdr hle
  rw [snapAt_points_eq year results R1 s1 h1, snapAt_points_eq year results R2 s2 h2, hdr]
  exact seasonPoints_mono results hnn s2.driver_number R1 R2 hle

/-- C5 witness: the theorem at the concrete two-race season. -/
theorem snapshot_points_eq_season_sum_witness :
    (∀ r ∈ rowsC6, 0 ≤ r.points) ∧
    ((∀ R : Nat, ∀ s ∈ snapAt (transform_championship_standings 2024 rowsC6) R,
      s.points = seasonPoints rowsC6 R s.driver_number) ∧
    (∀ R1 R2 : Nat, ∀ s1 s2 : StandingRecord,
      s1 ∈ snapAt (transform_championship_standings 2024 rowsC6) R1 →
      s2 ∈ snapAt (transform_championship_standings 2024 rowsC6) R2 →
      s1.driver_number = s2.driver_number → R1 ≤ R2 → s1.points ≤ s2.points)) :=
  ⟨by decide, snapshot_points_eq_season_sum 2024 rowsC6 (by decide)⟩

end PointsSumClaims

section StabilityLemmas

theorem buildStandings_filter_points_map_driver (results : List ResultRecord) (d : Int)
    (p : Int) :
    ∀ cum : List (Int × Int),
      ((buildStandings results d cum).filter (fun st => st.points = p)).map
          (·.driver_number) =
        (cum.filter (fun kv => kv.2 = p)).map (·.1) := by
  intro cum
  induction cum with
  | nil => simp [buildStandings]
  | cons kv t ih =>
    by_cases hp : kv.2 = p
    · simp only [buildStandings, List.map_cons, List.filter_cons] at *
      simp only [mkStanding, hp, decide_eq_true_eq, if_pos, List.map_cons]
      exact congrArg (List.cons kv.1) ih
    · simp only [buildStandings, List.map_cons, List.filter_cons] at *
      simp only [mkStanding, hp, decide_eq_true_eq, if_neg, List.map_cons]
      exact ih

theorem assoc_filter_map_fst (p : Int) :
    ∀ m : List (Int × Int), (m.map (·.1)).Nodup →
      (m.filter (fun kv => kv.2 = p)).map (·.1) =
        (m.map (·.1)).filter (fun n => (lookupCum m n).getD 0 = p) := by
  intro m
  induction m with
  | nil => intro _; simp
  | cons kv t ih =>
    intro hnod
    rw [List.map_cons, List.nodup_cons] at hnod
    obtain ⟨hn1, hn2⟩ := hnod
    have hhead : (lookupCum (kv :: t) kv.1).getD 0 = kv.2 := by
      simp [lookupCum]
    have htail : (t.map (·.1)).filter
        (fun n => (lookupCum (kv :: t) n).getD 0 = p) =
        (t.map (·.1)).filter (fun n => (lookupCum t n).getD 0 = p) := by
      refine List.filter_congr ?_
      intro n hn
      have hne : ¬ kv.1 = n := by
        intro hc
        exact hn1 (hc ▸ hn)
      rw [lookupCum, if_neg hne]
    by_cases hp : kv.2 = p
    · simp only [List.filter_cons, List.map_cons]
      simp [hp, hhead, htail, ih hn2]
    · simp only [List.filter_cons, List.map_cons]
      simp [hp, hhead, htail, ih hn2]

end StabilityLemmas

section SortStabilityClaims

/-- Two result rows of one race: drivers 99 and 7 finish P11 and P12, both
scoring 0 points, with 0 wins and 0 podiums each; driver 99's row comes
first (it has the better finishing position, matching the
`ORDER BY date, final_position` fetch). -/
def rowsC1 : List ResultRecord :=
  [ { date := 1, year := 2024, grand_prix := "GA", circuit_name := "C",
      driver_number := 99, driver_name := "X", driver_acronym := "XXX", team_name := "TX",
      starting_grid_position := some 11, final_position := some 11, points := 0,
      fastest_lap := none, total_time_penalty := 0, dnf := false, dns := false, dsq := false }
  , { date := 1, year := 2024, grand_prix := "GA", circuit_name := "C",
      driver_number := 7, driver_name := "Y", driver_acronym := "YYY", team_name := "TY",
      starting_grid_position := some 12, final_position := some 12, points := 0,
      fastest_lap := none, total_time_penalty := 0, dnf := false, dns := false, dsq := false } ]

/-- C1 counterexample: drivers 99 and 7 tie on points (0), wins (0) and
podiums (0); the claimed tie-break (lower driver_number first) would rank
driver 7 above driver 99, but the emitted snapshot ranks 99 first — the
sort key is points alone and Python's stable sort keeps the drivers'
first-appearance order, so the ranking is not independent of input
order. -/
theorem tie_break_insertion_order_cex :
    (transform_championship_standings 2024 rowsC1).map
        (fun s => (s.driver_number, s.position, s.points, s.wins, s.podiums)) =
      [(99, 1, 0, 0, 0), (7, 2, 0, 0, 0)] := by
  decide

/-- C1 amended: every snapshot set is ordered by cumulative points
descending, and entries with equal points keep the order in which their
drivers first appeared in the season's race-grouped rows (the sort is
stable with `points` as its only key); wins, podiums and driver number
play no role. -/
theorem standings_sorted_by_points_stable (year : Int) (results : List ResultRecord)
    (R : Nat) (hR : R ≤ (raceKeys results).length) :
    List.Chain' (fun a b => b.points ≤ a.points)
      (snapAt (transform_championship_standings year results) R) ∧
    (∀ p : Int,
      ((snapAt (transform_championship_standings year results) R).filter
          (fun s => s.points = p)).map (·.driver_number) =
        (seasonDrivers results R).filter (fun n => seasonPoints results R n = p)) := by
  by_cases hR0 : R = 0
  · subst hR0
    rw [snapAt_transform_zero]
    refine ⟨List.chain'_nil, ?_⟩
    intro p
    simp [seasonDrivers, racesUpTo, dedup]
  · have h1 : 1 ≤ R := by omega
    have h2 : R - 1 < (raceKeys results).length := by omega
    rw [snapAt_transform year results R h1 h2]
    constructor
    · refine (@List.chain'_map _ _ (fun x y : Int => y ≤ x)
        (fun s : StandingRecord => s.points) _).mp ?_
      rw [raceBlock, mkRecords_map_points]
      refine (@List.chain'_map _ _ (fun x y : Int => y ≤ x)
        (fun st : Standing => st.points) _).mpr ?_
      exact sortStandings_chain _
    · intro p
      rw [raceBlock, mkRecords_filter_points_map_driver, sortStandings_filter_points,
        buildStandings_filter_points_map_driver,
        assoc_filter_map_fst p _ (cumFold_nodup_fst results _), cumFold_take_map_fst]
      refine List.filter_congr ?_
      intro n _
      rw [cumFold_take_lookup]

/-- C1 witness: the amended theorem at the concrete tie season of the
counterexample. -/
theorem standings_sorted_by_points_stable_witness :
    (1 ≤ (raceKeys rowsC1).length) ∧
    (List.Chain' (fun a b => b.points ≤ a.points)
      (snapAt (transform_championship_standings 2024 rowsC1) 1) ∧
    (∀ p : Int,
      ((snapAt (transform_championship_standings 2024 rowsC1) 1).filter
          (fun s => s.points = p)).map (·.driver_number) =
        (seasonDrivers rowsC1 1).filter (fun n => seasonPoints rowsC1 1 n = p))) :=
  ⟨by decide, standings_sorted_by_points_stable 2024 rowsC1 1 (by decide)⟩

end SortStabilityClaims

section FirstRowLemmas

theorem firstRowFor_spec (results : List ResultRecord) (n : Int)
    (h : ∃ r ∈ results, r.driver_number = n) :
    ∃ r, firstRowFor results n = some r ∧ r ∈ results ∧ r.driver_number = n ∧
      (results.Pairwise (fun a b => a.date ≤ b.date) →
        ∀ r2 ∈ results, r2.driver_number = n → r.date ≤ r2.date) := by
  obtain ⟨r0, hr0, hn0⟩ := h
  have hfl : r0 ∈ results.filter (fun r => r.driver_number = n) :=
    List.mem_filter.mpr ⟨hr0, by simp [hn0]⟩
  cases hf : results.filter (fun r => r.driver_number = n) with
  | nil => rw [hf] at hfl; exact absurd hfl (List.not_mem_nil _)
  | cons r rest =>
    have hrin : r ∈ results.filter (fun r => r.driver_number = n) := by
      rw [hf]
      exact List.mem_cons_self _ _
    refine ⟨r, by rw [firstRowFor, hf]; rfl, List.mem_of_mem_filter hrin, ?_, ?_⟩
    · have := (List.mem_filter.mp hrin).2
      simpa using this
    · intro hpw r2 hr2 hn2
      have hpwf : (results.filter (fun r => r.driver_number = n)).Pairwise
          (fun a b => a.date ≤ b.date) := hpw.sublist (List.filter_sublist _)
      rw [hf] at hpwf
      have hr2f : r2 ∈ results.filter (fun r => r.driver_number = n) :=
        List.mem_filter.mpr ⟨hr2, by simp [hn2]⟩
      rw [hf] at hr2f
      rcases List.mem_cons.mp hr2f with h2 | h2
      · rw [h2]
      · exact (List.pairwise_cons.mp hpwf).1 r2 h2

end FirstRowLemmas

section IdentityClaims

/-- C10: every standings row takes `driver_name` and `team_name` from the
driver's first matching result row of the season — with date-ordered
results, the chronologically first race — so a driver whose team changes
mid-season is still reported with the first race's team in every later
snapshot. -/
theorem standings_identity_from_first_row (year : Int) (results : List ResultRecord)
    (hord : results.Pairwise (fun a b => a.date ≤ b.date)) :
    ∀ s ∈ transform_championship_standings year results,
      ∃ r, firstRowFor results s.driver_number = some r ∧
        s.driver_name = r.driver_name ∧ s.team_name = r.team_name ∧
        r ∈ results ∧ r.driver_number = s.driver_number ∧
        ∀ r2 ∈ results, r2.driver_number = s.driver_number → r.date ≤ r2.date := by
  intro s hs
  have hsnap : s ∈ snapAt (transform_championship_standings year results) s.race_round :=
    (mem_snapAt _ _ _).mpr ⟨hs, rfl⟩
  obtain ⟨hb1, hb2⟩ := mem_transform_round year results s hs
  have h2 : s.race_round - 1 < (raceKeys results).length := by omega
  rw [snapAt_transform year results s.race_round hb1 h2] at hsnap
  obtain ⟨kv, hkv, hdn, _, hdname, htname, _, _, _⟩ :=
    raceBlock_mem_standing year results s.race_round _ _ _ s hsnap
  have hmem : kv.1 ∈ (cumFold results []
      ((raceKeys results).take s.race_round)).map (·.1) :=
    List.mem_map.mpr ⟨kv, hkv, rfl⟩
  obtain ⟨k, hk, hrow⟩ := (mem_cumFold_fst results _ kv.1).mp hmem
  obtain ⟨row, hrowmem, hrowdn⟩ := List.mem_map.mp hrow
  have hrowres : row ∈ results := List.mem_of_mem_filter hrowmem
  obtain ⟨r, hr, hrmem, hrdn, hchron⟩ :=
    firstRowFor_spec results kv.1 ⟨row, hrowres, hrowdn⟩
  refine ⟨r, by rw [hdn]; exact hr, ?_, ?_, hrmem, by rw [hdn]; exact hrdn, ?_⟩
  · rw [hdname]
    simp [mkStanding, hr]
  · rw [htname]
    simp [mkStanding, hr]
  · intro r2 hr2 hn2
    exact hchron hord r2 hr2 (by rw [← hdn]; exact hn2)

/-- A two-race season in which driver 2 switches from team TB to team TB2
between races. -/
def rowsC10 : List ResultRecord :=
  [ { date := 1, year := 2024, grand_prix := "GA", circuit_name := "C",
      driver_number := 2, driver_name := "B", driver_acronym := "BBB", team_name := "TB",
      starting_grid_position := some 1, final_position := some 1, points := 25,
      fastest_lap := none, total_time_penalty := 0, dnf := false, dns := false, dsq := false }
  , { date := 2, year := 2024, grand_prix := "GB", circuit_name := "C",
      driver_number := 2, driver_name := "B", driver_acronym := "BBB", team_name := "TB2",
      starting_grid_position := some 1, final_position := some 1, points := 25,
      fastest_lap := none, total_time_penalty := 0, dnf := false, dns := false, dsq := false } ]

/-- C10 witness: the theorem at the concrete team-change season; driver
2's snapshot after race 2 still reports team TB, the team of the first
race (checked concretely on the emitted records). -/
theorem standings_identity_from_first_row_witness :
    (rowsC10.Pairwise (fun a b => a.date ≤ b.date)) ∧
    (∀ s ∈ transform_championship_standings 2024 rowsC10,
      ∃ r, firstRowFor rowsC10 s.driver_number = some r ∧
        s.driver_name = r.driver_name ∧ s.team_name = r.team_name ∧
        r ∈ rowsC10 ∧ r.driver_number = s.driver_number ∧
        ∀ r2 ∈ rowsC10, r2.driver_number = s.driver_number → r.date ≤ r2.date) ∧
    ((transform_championship_standings 2024 rowsC10).map
        (fun s => (s.race_round, s.driver_number, s.team_name)) =
      [(1, 2, "TB"), (2, 2, "TB")]) :=
  ⟨by decide, standings_identity_from_first_row 2024 rowsC10 (by decide), by decide⟩

end IdentityClaims

section PrefixLemmas

theorem raceRows_append_of_no_match (pre post : List ResultRecord) (k : Int × String)
    (h : ∀ r ∈ post, raceKey r ≠ k) :
    raceRows (pre ++ post) k = raceRows pre k := by
  rw [raceRows, raceRows, List.filter_append]
  have hnil : post.filter (fun r => raceKey r = k) = [] := by
    refine List.filter_eq_nil_iff.mpr ?_
    intro r hr
    simp [h r hr]
  rw [hnil, List.append_nil]

theorem firstRowFor_append (pre post : List ResultRecord) (n : Int)
    (h : ∃ r ∈ pre, r.driver_number = n) :
    firstRowFor (pre ++ post) n = firstRowFor pre n := by
  obtain ⟨r0, hr0, hn0⟩ := h
  have hfl : r0 ∈ pre.filter (fun r => r.driver_number = n) :=
    List.mem_filter.mpr ⟨hr0, by simp [hn0]⟩
  rw [firstRowFor, firstRowFor, List.filter_append]
  cases hf : pre.filter (fun r => r.driver_number = n) with
  | nil => rw [hf] at hfl; exact absurd hfl (List.not_mem_nil _)
  | cons r rest => simp

theorem mkStanding_append (pre post : List ResultRecord) (d : Int) (n : Int) (total : Int)
    (hn : ∃ r ∈ pre, r.driver_number = n) (hd : ∀ r ∈ post, ¬ r.date ≤ d) :
    mkStanding (pre ++ post) d n total = mkStanding pre d n total := by
  have hfilter : (pre ++ post).filter (fun r => r.driver_number = n && r.date ≤ d) =
      pre.filter (fun r => r.driver_number = n && r.date ≤ d) := by
    rw [List.filter_append]
    have hnil : post.filter (fun r => r.driver_number = n && r.date ≤ d) = [] := by
      refine List.filter_eq_nil_iff.mpr ?_
      intro r hr
      simp [hd r hr]
    rw [hnil, List.append_nil]
  rw [mkStanding, mkStanding, hfilter, firstRowFor_append pre post n hn]

theorem raceBlock_append (year : Int) (pre post : List ResultRecord) (round : Nat)
    (gp : String) (d : Int) (cum : List (Int × Int))
    (hcum : ∀ kv ∈ cum, ∃ r ∈ pre, r.driver_number = kv.1)
    (hd : ∀ r ∈ post, ¬ r.date ≤ d) :
    raceBlock year (pre ++ post) round gp d cum = raceBlock year pre round gp d cum := by
  have hbuild : buildStandings (pre ++ post) d cum = buildStandings pre d cum := by
    rw [buildStandings, buildStandings]
    refine List.map_congr_left ?_
    intro kv hkv
    exact mkStanding_append pre post d kv.1 kv.2 (hcum kv hkv) hd
  rw [raceBlock, raceBlock, hbuild]

theorem cumFold_append_results (pre post : List ResultRecord) :
    ∀ (ks : List (Int × String)) (m : List (Int × Int)),
      (∀ k ∈ ks, ∀ r ∈ post, raceKey r ≠ k) →
      cumFold (pre ++ post) m ks = cumFold pre m ks := by
  intro ks
  induction ks with
  | nil => intro m _; rfl
  | cons k ks' ih =>
    intro m h
    have hstep : raceRows (pre ++ post) k = raceRows pre k :=
      raceRows_append_of_no_match pre post k (fun r hr => h k (List.mem_cons_self _ _) r hr)
    have h1 : cumFold (pre ++ post) m (k :: ks') =
        cumFold (pre ++ post) (updateCum m (raceRows (pre ++ post) k)) ks' := by
      simp [cumFold, List.foldl_cons]
    have h2 : cumFold pre m (k :: ks') =
        cumFold pre (updateCum m (raceRows pre k)) ks' := by
      simp [cumFold, List.foldl_cons]
    rw [h1, h2, hstep]
    exact ih _ (fun k2 hk2 r hr => h k2 (List.mem_cons_of_mem _ hk2) r hr)

theorem raceKeys_append (pre post : List ResultRecord)
    (hdates : ∀ r ∈ pre, ∀ r2 ∈ post, r.date < r2.date) :
    raceKeys (pre ++ post) = raceKeys pre ++ raceKeys post := by
  rw [raceKeys, List.map_append]
  have hdisj : ∀ a ∈ pre.map raceKey, ∀ b ∈ post.map raceKey, a ≠ b := by
    intro a ha b hb
    obtain ⟨r, hr, rfl⟩ := List.mem_map.mp ha
    obtain ⟨r2, hr2, rfl⟩ := List.mem_map.mp hb
    intro hc
    have h1 : r.date = r2.date := congrArg Prod.fst hc
    have := hdates r hr r2 hr2
    omega
  rw [dedup_append_disjoint _ _ hdisj]
  refine sortKeys_append _ _ ?_
  intro a ha b hb
  obtain ⟨r, hr, rfl⟩ := List.mem_map.mp ((mem_dedup _ a).mp ha)
  obtain ⟨r2, hr2, rfl⟩ := List.mem_map.mp ((mem_dedup _ b).mp hb)
  exact hdates r hr r2 hr2

end PrefixLemmas

section ReplayClaims

/-- C3: the standings fold is deterministic and prefix-stable — computing
the standings over a chronologically extended input reproduces, at every
race round of the prefix, exactly the snapshot records computed over the
prefix alone.  Replaying the full ordered log therefore reproduces every
previously computed incremental snapshot (the wall-clock `created_at`
column, pure metadata, is outside the model). -/
theorem standings_replay_prefix_stable (year : Int) (pre post : List ResultRecord)
    (hdates : ∀ r ∈ pre, ∀ r2 ∈ post, r.date < r2.date) :
    ∀ R : Nat, R ≤ (raceKeys pre).length →
      snapAt (transform_championship_standings year (pre ++ post)) R =
        snapAt (transform_championship_standings year pre) R := by
  intro R hR
  by_cases hR0 : R = 0
  · subst hR0
    rw [snapAt_transform_zero, snapAt_transform_zero]
  · have h1 : 1 ≤ R := by omega
    have h2 : R - 1 < (raceKeys pre).length := by omega
    have hkeys : raceKeys (pre ++ post) = raceKeys pre ++ raceKeys post :=
      raceKeys_append pre post hdates
    have h2x : R - 1 < (raceKeys (pre ++ post)).length := by
      rw [hkeys, List.length_append]
      omega
    have hget : (raceKeys (pre ++ post)).get ⟨R - 1, h2x⟩ =
        (raceKeys pre).get ⟨R - 1, h2⟩ := by
      have hg := @List.get_append (Int × String) (raceKeys pre) (raceKeys post) (R - 1) h2
      have hc := List.get_of_eq hkeys ⟨R - 1, h2x⟩
      rw [hc]
      exact hg
    have htake : (raceKeys (pre ++ post)).take R = (raceKeys pre).take R := by
      rw [hkeys]
      exact List.take_append_of_le_length hR
    have hkmem : ∀ k ∈ (raceKeys pre).take R, ∀ r ∈ post, raceKey r ≠ k := by
      intro k hk r hr
      obtain ⟨r0, hr0, hkey0⟩ := (mem_raceKeys pre k).mp (List.mem_of_mem_take hk)
      intro hc
      have hrd : r.date = k.1 := congrArg Prod.fst hc
      have h0 : r0.date = k.1 := congrArg Prod.fst hkey0
      have := hdates r0 hr0 r hr
      omega
    have hcum : cumFold (pre ++ post) [] ((raceKeys (pre ++ post)).take R) =
        cumFold pre [] ((raceKeys pre).take R) := by
      rw [htake]
      exact cumFold_append_results pre post _ [] hkmem
    rw [snapAt_transform year (pre ++ post) R h1 h2x,
      snapAt_transform year pre R h1 h2, hget, hcum]
    refine raceBlock_append year pre post R _ _ _ ?_ ?_
    · intro kv hkv
      have hmem : kv.1 ∈ (cumFold pre [] ((raceKeys pre).take R)).map (·.1) :=
        List.mem_map.mpr ⟨kv, hkv, rfl⟩
      obtain ⟨k, hk, hrow⟩ := (mem_cumFold_fst pre _ kv.1).mp hmem
      obtain ⟨row, hrowmem, hrowdn⟩ := List.mem_map.mp hrow
      exact ⟨row, List.mem_of_mem_filter hrowmem, hrowdn⟩
    · intro r hr
      have hkmem2 : (raceKeys pre).get ⟨R - 1, h2⟩ ∈ raceKeys pre :=
        List.get_mem _ _ _
      obtain ⟨r0, hr0, hkey0⟩ := (mem_raceKeys pre _).mp hkmem2
      have h0 : r0.date = ((raceKeys pre).get ⟨R - 1, h2⟩).1 := congrArg Prod.fst hkey0
      have := hdates r0 hr0 r hr
      omega

/-- The first race of the two-race example season, fed alone. -/
def preC3 : List ResultRecord :=
  [ { date := 1, year := 2024, grand_prix := "GA", circuit_name := "C",
      driver_number := 1, driver_name := "A", driver_acronym := "AAA", team_name := "TA",
      starting_grid_position := some 1, final_position := some 1, points := 25,
      fastest_lap := none, total_time_penalty := 0, dnf := false, dns := false, dsq := false } ]

/-- The later race appended to `preC3`. -/
def postC3 : List ResultRecord :=
  [ { date := 2, year := 2024, grand_prix := "GB", circuit_name := "C",
      driver_number := 2, driver_name := "B", driver_acronym := "BBB", team_name := "TB",
      starting_grid_position := some 1, final_position := some 1, points := 25,
      fastest_lap := none, total_time_penalty := 0, dnf := false, dns := false, dsq := false } ]

/-- C3 witness: the theorem at the concrete season — the round-1 snapshot
of the full replay equals the round-1 snapshot of the incremental prefix
run. -/
theorem standings_replay_prefix_stable_witness :
    (∀ r ∈ preC3, ∀ r2 ∈ postC3, r.date < r2.date) ∧ (1 ≤ (raceKeys preC3).length) ∧
    snapAt (transform_championship_standings 2024 (preC3 ++ postC3)) 1 =
      snapAt (transform_championship_standings 2024 preC3) 1 :=
  ⟨by decide, by decide,
    standings_replay_prefix_stable 2024 preC3 postC3 (by decide) 1 (by decide)⟩

end ReplayClaims

section DuplicateLemmas

theorem dedup_const {α : Type} [DecidableEq α] (a : α) :
    ∀ l : List α, l ≠ [] → (∀ x ∈ l, x = a) → dedup l = [a] := by
  intro l
  induction l with
  | nil => intro h _; exact absurd rfl h
  | cons x xs ih =>
    intro _ hall
    have hx : x = a := hall x (List.mem_cons_self _ _)
    subst hx
    rw [dedup]
    have : (dedup xs).filter (fun y => y ≠ x) = [] := by
      refine List.filter_eq_nil_iff.mpr ?_
      intro y hy
      have : y = x := hall y (List.mem_cons_of_mem _ ((mem_dedup xs y).mp hy))
      simp [this]
    rw [this]

theorem sumPoints_append (a b : List ResultRecord) (n : Int) :
    sumPoints (a ++ b) n = sumPoints a n + sumPoints b n := by
  rw [sumPoints, sumPoints, sumPoints, List.filter_append, List.map_append, List.sum_append]

theorem raceRows_self (rows : List ResultRecord) (d : Int) (g : String)
    (hkey : ∀ r ∈ rows, r.date = d ∧ r.grand_prix = g) :
    raceRows rows (d, g) = rows := by
  rw [raceRows]
  refine List.filter_eq_self.mpr ?_
  intro r hr
  obtain ⟨h1, h2⟩ := hkey r hr
  simp [raceKey, h1, h2]

end DuplicateLemmas

section DuplicateClaims

/-- One result row of one race, standing in for the rows of an
already-committed race that are then fed to the transform a second
time. -/
def rowsC4 : List ResultRecord :=
  [ { date := 1, year := 2024, grand_prix := "GA", circuit_name := "C",
      driver_number := 1, driver_name := "A", driver_acronym := "AAA", team_name := "TA",
      starting_grid_position := some 1, final_position := some 1, points := 25,
      fastest_lap := none, total_time_penalty := 0, dnf := false, dns := false, dsq := false } ]

/-- C4 counterexample: re-feeding an already-processed race raises
nothing — the transform is a total function with no
`StandingsOrderError`/`DuplicateRaceError` path (no such errors exist in
the code) — and the previously computed snapshot is not left unchanged:
with the race's rows present twice, the round-1 snapshot silently reports
50 points and 2 wins instead of the committed 25 points and 1 win. -/
theorem duplicate_race_silently_double_counts_cex :
    ((transform_championship_standings 2024 (rowsC4 ++ rowsC4)).map
        (fun s => (s.race_round, s.driver_number, s.points, s.wins)) =
      [(1, 1, 50, 2)]) ∧
    ((transform_championship_standings 2024 rowsC4).map
        (fun s => (s.race_round, s.driver_number, s.points, s.wins)) =
      [(1, 1, 25, 1)]) := by
  constructor
  · decide
  · decide

/-- C4 amended: the transform performs no sequencing or duplicate
validation and cannot raise — it is a total function of the rows it is
given — and duplicated rows of a race are silently absorbed: when one
race's rows appear twice, every driver's snapshot points in the merged
round-1 snapshot are double the single-feed sum, instead of the call
being rejected with prior snapshots preserved. -/
theorem duplicate_race_rows_absorbed (year : Int) (rows : List ResultRecord)
    (d : Int) (g : String) (hne : rows ≠ [])
    (hkey : ∀ r ∈ rows, r.date = d ∧ r.grand_prix = g) :
    ∀ s ∈ transform_championship_standings year (rows ++ rows),
      s.race_round = 1 ∧ s.points = 2 * sumPoints rows s.driver_number := by
  have hkey2 : ∀ r ∈ rows ++ rows, r.date = d ∧ r.grand_prix = g := by
    intro r hr
    rcases List.mem_append.mp hr with h | h
    · exact hkey r h
    · exact hkey r h
  have hkeys : raceKeys (rows ++ rows) = [(d, g)] := by
    rw [raceKeys]
    have hconst : ∀ x ∈ (rows ++ rows).map raceKey, x = (d, g) := by
      intro x hx
      obtain ⟨r, hr, rfl⟩ := List.mem_map.mp hx
      obtain ⟨h1, h2⟩ := hkey2 r hr
      rw [raceKey, h1, h2]
    have hnil : (rows ++ rows).map raceKey ≠ [] := by
      cases rows with
      | nil => exact absurd rfl hne
      | cons r rest => simp
    rw [dedup_const (d, g) _ hnil hconst]
    rfl
  intro s hs
  obtain ⟨hb1, hb2⟩ := mem_transform_round year (rows ++ rows) s hs
  rw [hkeys] at hb2
  have hround : s.race_round = 1 := by
    simp only [List.length_cons, List.length_nil] at hb2
    omega
  refine ⟨hround, ?_⟩
  have hsnap : s ∈ snapAt (transform_championship_standings year (rows ++ rows)) 1 :=
    (mem_snapAt _ _ _).mpr ⟨hs, hround⟩
  have h2 : 1 - 1 < (raceKeys (rows ++ rows)).length := by
    rw [hkeys]
    simp
  rw [snapAt_transform year (rows ++ rows) 1 (le_refl 1) h2] at hsnap
  obtain ⟨kv, hkv, hdn, hpts, _⟩ :=
    raceBlock_mem_standing year (rows ++ rows) 1 _ _ _ s hsnap
  have hnod := cumFold_nodup_fst (rows ++ rows) ((raceKeys (rows ++ rows)).take 1)
  have hlook := lookup_mem_nodup _ hnod kv hkv
  have hval : kv.2 = (lookupCum (cumFold (rows ++ rows) []
      ((raceKeys (rows ++ rows)).take 1)) kv.1).getD 0 := by
    rw [hlook]
    rfl
  rw [hpts, hval, cumFold_take_lookup, hdn]
  have hrace : racesUpTo (rows ++ rows) 1 = [rows ++ rows] := by
    rw [racesUpTo, hkeys]
    rw [List.take_cons_succ, List.take_nil, List.map_cons, List.map_nil,
      raceRows_self (rows ++ rows) d g hkey2]
  rw [seasonPoints, hrace]
  simp only [List.map_cons, List.map_nil, List.sum_cons, List.sum_nil]
  rw [sumPoints_append]
  ring

/-- C4 witness: the amended theorem at the concrete duplicated race. -/
theorem duplicate_race_rows_absorbed_witness :
    (rowsC4 ≠ []) ∧ (∀ r ∈ rowsC4, r.date = 1 ∧ r.grand_prix = "GA") ∧
    (∀ s ∈ transform_championship_standings 2024 (rowsC4 ++ rowsC4),
      s.race_round = 1 ∧ s.points = 2 * sumPoints rowsC4 s.driver_number) :=
  ⟨by decide, by decide,
    duplicate_race_rows_absorbed 2024 rowsC4 1 "GA" (by decide) (by decide)⟩

end DuplicateClaims

end StandingsInvariantClaims

end F1
